import Mathlib

/-! dename client: consensus verification, lookup, update and signing

A shallow embedding of `client/client.go`.  Byte slices are lists of naturals,
a slice that may be nil is an `Option`, Go multi-value returns are tuples, the
packages the client imports (protocol, proto, ed25519, transport) are taken as the
fields of `Env`, and the operations of package time the client uses are defined on
`GoTime` with their int64 arithmetic.
-/

namespace Dename

/-! ## Data model -/

/-- The contents of a Go byte slice. -/
abbrev Bytes := List Nat

/-- Go: a time.Time as its methods sec() and nsec() read it: the seconds since
January 1 of year 1, an int64, and the nanoseconds within the second.  The
monotonic clock reading some values carry is left out: it has no part in a
comparison with a time made by time.Unix. -/
structure GoTime where
  sec : Int
  nsec : Int
  deriving DecidableEq, Repr

/-- Error values of the client.  Each constructor is one error the source builds;
the arguments are the values formatted into its message. -/
inductive Error where
  /-- Go: fmt.Errorf("dial %s: %s", s.address, err). -/
  | dial (address : String) (cause : String)
  /-- Go: fmt.Errorf("transport handshake %s: %s", s.address, err). -/
  | transportHandshake (address : String) (cause : String)
  /-- Go: fmt.Errorf("verifyConsensus: state hashes differ"). -/
  | stateHashesDiffer
  /-- Go: fmt.Errorf("not enough valid signatures for consensus (%d out of %d): %s", ...). -/
  | notEnoughValid (n : Nat) (required : Int) (names : String)
  /-- Go: fmt.Errorf("not enough fresh signatures (%d out of %d): %s", ...). -/
  | notEnoughFresh (n : Nat) (required : Int) (names : String)
  /-- Go: errOutOfDate, its message naming the expiration instant. -/
  | errOutOfDate (expirationTime : GoTime)
  | ErrRegistrationDisabled
  | ErrInviteInvalid
  | ErrInviteUsed
  | ErrNotAuthorized
  | ErrCouldntVerify
  /-- Go: fmt.Errorf("unknown status code"). -/
  | unknownStatusCode
  /-- An error value handed back by an imported package. -/
  | external (cause : String)
  deriving DecidableEq, Repr

/-- Go: Profile_PublicKey; `Ed25519` is nil when the key is absent. -/
structure Profile_PublicKey where
  Ed25519 : Option Bytes
  deriving DecidableEq, Repr

structure verifier where
  name : String
  pk : Profile_PublicKey
  deriving DecidableEq, Repr

structure server where
  address : String
  timeout : Int
  transportPK : Bytes
  deriving DecidableEq, Repr

/-- Go: SignedServerMessage_ServerMessage after a successful Unmarshal.
`Server` and `Time` are dereferenced unconditionally by the client;
`HashOfState` is a slice and is nil when the field is absent. -/
structure ServerMessage where
  Server : Nat
  Time : Nat
  HashOfState : Option Bytes
  deriving DecidableEq, Repr

structure SignedServerMessage where
  Message : Bytes
  Signature : Bytes
  deriving DecidableEq, Repr

/-- Go: Profile; the fields the client does not read are kept as `rest`. -/
structure Profile where
  ExpirationTime : Nat
  rest : Bytes
  deriving DecidableEq, Repr

/-- Go: ClientReply_Status, as returned by GetStatus. -/
inductive Status where
  | OK
  | REGISTRATION_DISABLED
  | INVITE_INVALID
  | INVITE_USED
  | NOT_AUTHORIZED
  | unknown (code : Nat)
  deriving DecidableEq, Repr

structure ClientReply where
  Status : Status
  StateConfirmations : List SignedServerMessage
  LookupNodes : Bytes
  deriving DecidableEq, Repr

structure SignedProfileOperation where
  ProfileOperation : Bytes
  OldProfileSignature : Option Bytes
  NewProfileSignature : Option Bytes
  deriving DecidableEq, Repr

/-- Go: ClientMessage, the two request shapes the client sends. -/
inductive ClientMessage where
  | lookup (PeekState : Bool) (ResolveName : Bytes) (PadReplyTo : Nat)
  | update (ModifyProfile : SignedProfileOperation) (InviteCode : Option Bytes)
  deriving DecidableEq, Repr

/-- An established transport session as one request sees it: the error of
writing a frame, and the frame read back after that frame was written. -/
structure Conn where
  WriteFrame : Bytes → Option Error
  ReadFrame : Bytes → Except Error Bytes

/-- The imported packages and the system clock. -/
structure Env where
  /-- Go: proto.Unmarshal into a ServerMessage. -/
  unmarshalServerMessage : Bytes → Except Error ServerMessage
  /-- Go: proto.Unmarshal into a Profile. -/
  unmarshalProfile : Bytes → Except Error Profile
  /-- Go: proto.Unmarshal into a ClientReply: the message as filled, and the error. -/
  unmarshalClientReply : Bytes → ClientReply × Option Error
  PBEncodeProfile : Profile → Bytes
  /-- Go: PBEncode of a ProfileOperationT with the given Name and NewProfile. -/
  PBEncodeOperation : Bytes → Bytes → Bytes
  PBEncodeMessage : ClientMessage → Bytes
  Pad : Bytes → Nat → Bytes
  Unpad : Bytes → Bytes
  VerifyResolveAgainstRoot : Option Bytes → String → Bytes → Option Bytes × Option Error
  /-- The protocol constant, in seconds. -/
  MAX_VALIDITY_PERIOD : Nat
  /-- Go: ed25519.Verify(publicKey, message, signature). -/
  ed25519Verify : Bytes → Bytes → Bytes → Bool
  /-- Go: ed25519.Sign(privateKey, message). -/
  ed25519Sign : Bytes → Bytes → Bytes
  /-- Go: transport.Handshake on the plain connection dialed to an address. -/
  Handshake : String → Bytes → Except String Conn
  /-- Go: the value time.Now() returns at the validity gate of LookupFromReply. -/
  timeNow : GoTime

/-- Go: Client.  `now k` is what the injected clock returns the k-th time (from 0)
it is called during one VerifyConsensus, `freshnessThreshold` a Duration in
nanoseconds, `dialer` the outcome of Dial("tcp", address), `verifier` the map
lookup. -/
structure Client where
  now : Nat → GoTime
  dialer : String → Option String
  freshnessThreshold : Int
  freshnessSignaturesRequired : Int
  consensusSignaturesRequired : Int
  verifier : Nat → Option verifier
  update : List server
  lookup : List server

/-! ## Helpers for Go built-ins -/

def pad_to : Nat := 4 * 2 ^ 10

/-- Go: int64(x) for a uint64 x. -/
def int64 (x : Nat) : Int :=
  if x % 2 ^ 64 < 2 ^ 63 then ((x % 2 ^ 64 : Nat) : Int) else ((x % 2 ^ 64 : Nat) : Int) - 2 ^ 64

/-- Go: time.Second, in nanoseconds. -/
def Second : Int := 1000000000

/-- Go: unixToInternal of package time, the seconds from year 1 to 1970. -/
def unixToInternal : Int := 62135596800

/-- Arithmetic on int64: a result wrapped into the range from -2^63 to 2^63 - 1. -/
def wrapInt64 (x : Int) : Int := (x + 2 ^ 63) % 2 ^ 64 - 2 ^ 63

/-- Go: x / y on integers for a positive y: the quotient truncated toward zero. -/
def goDiv (x y : Int) : Int := if 0 ≤ x then x / y else -((-x) / y)

/-- Go: x % y on integers for a positive y: the remainder has the sign of x. -/
def goMod (x y : Int) : Int := x - y * goDiv x y

/-- Go: time.Unix(sec, nsec).  The second count since year 1 is computed in int64
and wraps. -/
def timeUnix (sec nsec : Int) : GoTime :=
  if nsec < 0 ∨ nsec ≥ 1000000000 then
    let n := goDiv nsec 1000000000
    let sec1 := wrapInt64 (sec + n)
    let nsec1 := nsec - n * 1000000000
    if nsec1 < 0 then
      { sec := wrapInt64 (wrapInt64 (sec1 - 1) + unixToInternal), nsec := nsec1 + 1000000000 }
    else { sec := wrapInt64 (sec1 + unixToInternal), nsec := nsec1 }
  else { sec := wrapInt64 (sec + unixToInternal), nsec := nsec }

/-- Go: addSec of package time: the sum of a second count and d, set to the
largest or smallest second count when the int64 sum overflows. -/
def addSec (ext d : Int) : Int :=
  let sum := wrapInt64 (ext + d)
  if (sum > ext ↔ d > 0) then sum
  else if d > 0 then 2 ^ 63 - 1
  else -(2 ^ 63 - 1)

/-- Go: Time.Add(d), d a Duration in nanoseconds. -/
def GoTime.Add (t : GoTime) (d : Int) : GoTime :=
  let dsec := goDiv d 1000000000
  let nsec := t.nsec + goMod d 1000000000
  if nsec ≥ 1000000000 then { sec := addSec t.sec (dsec + 1), nsec := nsec - 1000000000 }
  else if nsec < 0 then { sec := addSec t.sec (dsec - 1), nsec := nsec + 1000000000 }
  else { sec := addSec t.sec dsec, nsec := nsec }

/-- Go: Time.After(u). -/
def GoTime.After (t u : GoTime) : Bool :=
  decide (t.sec > u.sec ∨ (t.sec = u.sec ∧ t.nsec > u.nsec))

/-- Go: Time.Before(u). -/
def GoTime.Before (t u : GoTime) : Bool :=
  decide (t.sec < u.sec ∨ (t.sec = u.sec ∧ t.nsec < u.nsec))

/-- Go: bytes.Equal; a nil slice equals an empty one. -/
def bytesEqual (a b : Option Bytes) : Bool := decide (a.getD [] = b.getD [])

/-- Go: copy(dst[:], src) into a zeroed array of n bytes. -/
def copyArray (n : Nat) (src : Bytes) : Bytes :=
  src.take n ++ List.replicate (n - src.length) 0

/-- Go: []byte(s) for a string s. -/
def bytesOfString (s : String) : Bytes := s.toUTF8.toList.map (fun b => b.toNat)

/-- Go: m[id] = struct{}{} on a set kept as a duplicate-free list. -/
def setAdd (s : List Nat) (id : Nat) : List Nat := if id ∈ s then s else s ++ [id]

/-! ## Signing contexts -/

/-- Go: []byte("ModifyProfileOld\x00"). -/
def oldSeparator : Bytes := [77, 111, 100, 105, 102, 121, 80, 114, 111, 102, 105, 108, 101, 79, 108, 100, 0]

/-- Go: []byte("ModifyProfileNew\x00"). -/
def newSeparator : Bytes := [77, 111, 100, 105, 102, 121, 80, 114, 111, 102, 105, 108, 101, 78, 101, 119, 0]

/-- Go: []byte("msg\x00"). -/
def msgSeparator : Bytes := [109, 115, 103, 0]

/-- The bytes OldSign signs for an operation body. -/
def oldSignedBytes (body : Bytes) : Bytes := oldSeparator ++ body

/-- The bytes NewSign signs for an operation body. -/
def newSignedBytes (body : Bytes) : Bytes := newSeparator ++ body

/-- The bytes VerifyConsensus checks a signature over. -/
def consensusSignedBytes (message : Bytes) : Bytes := msgSeparator ++ message

def MakeOperation (E : Env) (name : String) (profile : Profile) : SignedProfileOperation :=
  { ProfileOperation := E.PBEncodeOperation (bytesOfString name) (E.PBEncodeProfile profile)
    OldProfileSignature := none
    NewProfileSignature := none }

/-- Go: OldSign.  The source writes the signature into `op` and returns the same
pointer; the returned value is the operation after the write. -/
def OldSign (E : Env) (sk : Bytes) (op : SignedProfileOperation) : SignedProfileOperation :=
  let msg := oldSignedBytes op.ProfileOperation
  { op with OldProfileSignature := some (E.ed25519Sign sk msg) }

/-- Go: NewSign.  As OldSign, the write is in place and the same pointer is
returned. -/
def NewSign (E : Env) (sk : Bytes) (op : SignedProfileOperation) : SignedProfileOperation :=
  let msg := newSignedBytes op.ProfileOperation
  { op with NewProfileSignature := some (E.ed25519Sign sk msg) }

def TransferProposal (E : Env) (sk : Bytes) (name : String) (profile : Profile) :
    SignedProfileOperation :=
  OldSign E sk (MakeOperation E name profile)

/-! ## VerifyConsensus -/

/-- The loop variables of VerifyConsensus. -/
structure ConsensusState where
  rootHash : Option Bytes
  consensusServers : List Nat
  freshnessServers : List Nat
  /-- How many times now() has been called so far. -/
  clockCalls : Nat
  deriving DecidableEq, Repr

/-- Go: the freshness test, time.Unix(int64(*msg.Time), 0).Add(threshold).After(now()),
now() being called for the k-th time. -/
def isFresh (c : Client) (k : Nat) (msg : ServerMessage) : Bool :=
  ((timeUnix (int64 msg.Time) 0).Add c.freshnessThreshold).After (c.now k)

/-- The part of the loop body after the signature check: root comparison, then
the two set insertions. -/
def recordEntry (c : Client) (st : ConsensusState) (msg : ServerMessage) :
    Except Error ConsensusState :=
  let next (rootHash : Option Bytes) : Except Error ConsensusState :=
    let consensusServers := setAdd st.consensusServers msg.Server
    if !isFresh c st.clockCalls msg then
      .ok { rootHash := rootHash, consensusServers := consensusServers,
            freshnessServers := st.freshnessServers, clockCalls := st.clockCalls + 1 }
    else
      .ok { rootHash := rootHash, consensusServers := consensusServers,
            freshnessServers := setAdd st.freshnessServers msg.Server,
            clockCalls := st.clockCalls + 1 }
  match st.rootHash with
  | none => next msg.HashOfState
  | some r =>
    if !bytesEqual (some r) msg.HashOfState then .error Error.stateHashesDiffer
    else next (some r)

/-- The checks that make the loop body `continue`: the decoded message when the
entry decodes, its server is a verifier with an Ed25519 key, and the signature
verifies. -/
def verifiedMessage (E : Env) (c : Client) (signedMsg : SignedServerMessage) :
    Option ServerMessage :=
  match E.unmarshalServerMessage signedMsg.Message with
  | .error _ => none
  | .ok msg =>
    match c.verifier msg.Server with
    | none => none
    | some v =>
      match v.pk.Ed25519 with
      | none => none
      | some key =>
        let pk_ed := copyArray 32 key
        let sig_ed := copyArray 64 signedMsg.Signature
        if !E.ed25519Verify pk_ed (consensusSignedBytes signedMsg.Message) sig_ed then none
        else some msg

/-- One iteration of the loop of VerifyConsensus; an error is the early return. -/
def consensusStep (E : Env) (c : Client) (st : ConsensusState)
    (signedMsg : SignedServerMessage) : Except Error ConsensusState :=
  match verifiedMessage E c signedMsg with
  | none => .ok st
  | some msg => recordEntry c st msg

def consensusLoop (E : Env) (c : Client) :
    ConsensusState → List SignedServerMessage → Except Error ConsensusState
  | st, [] => .ok st
  | st, signedMsg :: rest =>
    match consensusStep E c st signedMsg with
    | .error e => .error e
    | .ok st1 => consensusLoop E c st1 rest

/-- Go: printVerifiers.  Go ranges over the map in an unspecified order; the order
of the list stands for it, and only the text of the two not-enough errors depends
on it. -/
def printVerifiers (vs : List Nat) (verifier : Nat → Option verifier) : String :=
  vs.foldl (fun ret id =>
    (if ret != "" then ret ++ ", " else ret) ++
      (match verifier id with
       | some v => v.name
       | none => "")) ""

def VerifyConsensus (E : Env) (c : Client) (signedHashOfStateMsgs : List SignedServerMessage) :
    Option Bytes × Option Error :=
  match consensusLoop E c { rootHash := none, consensusServers := [], freshnessServers := [], clockCalls := 0 }
      signedHashOfStateMsgs with
  | .error e => (none, some e)
  | .ok st =>
    if (st.consensusServers.length : Int) < c.consensusSignaturesRequired then
      (none, some (Error.notEnoughValid st.consensusServers.length c.consensusSignaturesRequired
        (printVerifiers st.consensusServers c.verifier)))
    else if (st.freshnessServers.length : Int) < c.freshnessSignaturesRequired then
      (none, some (Error.notEnoughFresh st.freshnessServers.length c.freshnessSignaturesRequired
        (printVerifiers st.freshnessServers c.verifier)))
    else (st.rootHash, none)

/-! ## Servers, sessions and the retry loop -/

/-- Go: Client.connect.  The deadline set on the plain connection bounds the
duration of the session and has no part in the value returned. -/
def connect (E : Env) (c : Client) (s : server) : Except Error Conn :=
  match c.dialer s.address with
  | some err => .error (Error.dial s.address err)
  | none =>
    match E.Handshake s.address s.transportPK with
    | .error err => .error (Error.transportHandshake s.address err)
    | .ok conn => .ok conn

/-- What a run of atSomeServer does to the outside: opening a connection to a
server, invoking the callback on its session (with the `done` it returned),
closing the session. -/
inductive Event where
  | connect (s : server)
  | call (s : server) (done : Bool)
  | close (s : server)
  deriving DecidableEq, Repr

/-- The loop of atSomeServer from a given value of the named result `err`.  The
callback is a closure: `st` holds the variables it captures.  The result is the
returned error, the captured variables, and the events in order. -/
def atSomeServerFrom {σ : Type} (E : Env) (c : Client)
    (f : Conn → σ → (Bool × Option Error) × σ) :
    List server → Option Error → σ → Option Error × σ × List Event
  | [], err, st => (err, st, [])
  | s :: rest, _, st =>
    match connect E c s with
    | .error err =>
      let r := atSomeServerFrom E c f rest (some err) st
      (r.1, r.2.1, Event.connect s :: r.2.2)
    | .ok conn =>
      let out := f conn st
      if out.1.1 then
        (out.1.2, out.2, [Event.connect s, Event.call s true, Event.close s])
      else
        let r := atSomeServerFrom E c f rest out.1.2 out.2
        (r.1, r.2.1, Event.connect s :: Event.call s false :: Event.close s :: r.2.2)

def atSomeServer {σ : Type} (E : Env) (c : Client) (servers : List server)
    (f : Conn → σ → (Bool × Option Error) × σ) (st : σ) : Option Error × σ × List Event :=
  atSomeServerFrom E c f servers none st

/-- The servers a connection was opened to, in order. -/
def connectedTo : List Event → List server
  | [] => []
  | Event.connect s :: rest => s :: connectedTo rest
  | _ :: rest => connectedTo rest

/-- The servers the callback was invoked on, in order. -/
def calledOn : List Event → List server
  | [] => []
  | Event.call s _ :: rest => s :: calledOn rest
  | _ :: rest => calledOn rest

/-- Go: readReply.  On failure the reply variable is nil (read error) or the
partly filled message (decode error). -/
def readReply (E : Env) (conn : Conn) (sent : Bytes) : Except (Option ClientReply × Error) ClientReply :=
  match conn.ReadFrame sent with
  | .error err => .error (none, err)
  | .ok frame =>
    match E.unmarshalClientReply (E.Unpad frame) with
    | (reply, some err) => .error (some reply, err)
    | (reply, none) => .ok reply

/-! ## Lookup -/

/-- Go: the constant MAX_VALIDITY_PERIOD * time.Second / 2, a Duration. -/
def halfValidity (E : Env) : Int := ((E.MAX_VALIDITY_PERIOD * 1000000000 / 2 : Nat) : Int)

def IsErrOutOfDate : Option Error → Bool
  | some (Error.errOutOfDate _) => true
  | _ => false

def LookupFromReply (E : Env) (c : Client) (name : String) (reply : ClientReply) :
    Option Profile × Option Error :=
  match VerifyConsensus E c reply.StateConfirmations with
  | (_, some err) => (none, some err)
  | (root, none) =>
    match E.VerifyResolveAgainstRoot root name reply.LookupNodes with
    | (_, some err) => (none, some err)
    | (none, none) => (none, none)
    | (some profileBs, none) =>
      match E.unmarshalProfile profileBs with
      | .error err => (none, some err)
      | .ok profile =>
        let expirationTime := timeUnix (int64 profile.ExpirationTime) 0
        if expirationTime.Before (E.timeNow.Add (halfValidity E)) then
          (some profile, some (Error.errOutOfDate expirationTime))
        else (some profile, none)

/-- The callback of LookupReply; the captured variables are `profile` and `reply`. -/
def lookupCallback (E : Env) (c : Client) (name : String) (conn : Conn)
    (st : Option Profile × Option ClientReply) :
    (Bool × Option Error) × (Option Profile × Option ClientReply) :=
  let rq := ClientMessage.lookup true (bytesOfString name) pad_to
  let frame := E.Pad (E.PBEncodeMessage rq) 256
  match conn.WriteFrame frame with
  | some err => ((false, some err), st)
  | none =>
    match readReply E conn frame with
    | .error (reply, err) => ((false, some err), (st.1, reply))
    | .ok reply =>
      match LookupFromReply E c name reply with
      | (profile, some err) => ((true, some err), (profile, some reply))
      | (profile, none) => ((true, none), (profile, some reply))

/-- Go: LookupReply, with the events of the run as a last component. -/
def LookupReply (E : Env) (c : Client) (name : String) :
    Option Profile × Option ClientReply × Option Error × List Event :=
  let r := atSomeServer E c c.lookup (lookupCallback E c name) (none, none)
  (r.2.1.1, r.2.1.2, r.1, r.2.2)

/-- Go: Lookup, with the events of the run as a last component. -/
def Lookup (E : Env) (c : Client) (name : String) : Option Profile × Option Error × List Event :=
  let r := LookupReply E c name
  (r.1, r.2.2.1, r.2.2.2)

/-! ## Update -/

/-- The switch on reply.GetStatus() in Enact. -/
def statusResult : Status → Bool × Option Error
  | Status.OK => (true, none)
  | Status.REGISTRATION_DISABLED => (false, some Error.ErrRegistrationDisabled)
  | Status.INVITE_INVALID => (false, some Error.ErrInviteInvalid)
  | Status.INVITE_USED => (false, some Error.ErrInviteUsed)
  | Status.NOT_AUTHORIZED => (false, some Error.ErrNotAuthorized)
  | Status.unknown _ => (false, some Error.unknownStatusCode)

/-- The callback of Enact; it captures nothing that outlives the call. -/
def enactCallback (E : Env) (op : SignedProfileOperation) (invite : Option Bytes) (conn : Conn)
    (st : Unit) : (Bool × Option Error) × Unit :=
  let msg := ClientMessage.update op invite
  let frame := E.Pad (E.PBEncodeMessage msg) pad_to
  match conn.WriteFrame frame with
  | some err => ((false, some err), st)
  | none =>
    match readReply E conn frame with
    | .error (_, err) => ((false, some err), st)
    | .ok reply => (statusResult reply.Status, st)

/-- Go: Enact, with the events of the run as a second component. -/
def Enact (E : Env) (c : Client) (op : SignedProfileOperation) (invite : Option Bytes) :
    Option Error × List Event :=
  let r := atSomeServer E c c.update (enactCallback E op invite) ()
  (r.1, r.2.2)

def Register (E : Env) (c : Client) (sk : Bytes) (name : String) (profile : Profile)
    (invite : Option Bytes) : Option Error × List Event :=
  Enact E c (NewSign E sk (MakeOperation E name profile)) invite

def AcceptTransfer (E : Env) (c : Client) (sk : Bytes) (op : SignedProfileOperation) :
    Option Error × List Event :=
  Enact E c (NewSign E sk op) none

def Modify (E : Env) (c : Client) (sk : Bytes) (name : String) (profile : Profile) :
    Option Error × List Event :=
  Enact E c (NewSign E sk (OldSign E sk (MakeOperation E name profile))) none

/-! ## Notions the properties are stated with -/

/-- The entry counts toward the result: its Message decodes, its Server is in
the verifier set, that verifier has an Ed25519 key, and the signature verifies
under it over the separator followed by Message. -/
def contributes (E : Env) (c : Client) (signedMsg : SignedServerMessage) : Bool :=
  match E.unmarshalServerMessage signedMsg.Message with
  | .error _ => false
  | .ok msg =>
    match c.verifier msg.Server with
    | none => false
    | some v =>
      match v.pk.Ed25519 with
      | none => false
      | some key =>
        E.ed25519Verify (copyArray 32 key) (consensusSignedBytes signedMsg.Message)
          (copyArray 64 signedMsg.Signature)

/-- The decoded messages of the verified entries of a list, in order. -/
def verifiedMessages (E : Env) (c : Client) (l : List SignedServerMessage) : List ServerMessage :=
  l.filterMap (verifiedMessage E c)

/-- The distinct server IDs among some messages. -/
def distinctServers (msgs : List ServerMessage) : List Nat :=
  (msgs.map (fun m => m.Server)).dedup

/-- Number of distinct verified servers of a list. -/
def consensusCount (E : Env) (c : Client) (l : List SignedServerMessage) : Nat :=
  (distinctServers (verifiedMessages E c l)).length

/-- The messages of a list picked by a test that takes the position: message
number i is tested as number k + i. -/
def selectFrom (p : Nat → ServerMessage → Bool) : Nat → List ServerMessage → List ServerMessage
  | _, [] => []
  | k, m :: rest => if p k m then m :: selectFrom p (k + 1) rest else selectFrom p (k + 1) rest

/-- The instant of a time value, in nanoseconds since the Unix epoch. -/
def unixNanos (t : GoTime) : Int := (t.sec - unixToInternal) * 1000000000 + t.nsec

/-- A time value is well formed: its nanoseconds are within the second. -/
def validTime (t : GoTime) : Bool := decide (0 ≤ t.nsec ∧ t.nsec < 1000000000)

/-- Freshness as the specification words it: Time, in seconds, plus
freshnessThreshold is strictly greater than now(), at the k-th reading of now(). -/
def freshAt (c : Client) (k : Nat) (m : ServerMessage) : Bool :=
  decide ((m.Time : Int) * 1000000000 + c.freshnessThreshold > unixNanos (c.now k))

/-- Package time represents the instants Time and Time + freshnessThreshold:
their second counts since year 1 are within int64. -/
def representable (c : Client) (m : ServerMessage) : Bool :=
  decide ((m.Time : Int) + unixToInternal ≤ 2 ^ 63 - 1 ∧
    -(2 ^ 63) ≤ (m.Time : Int) + unixToInternal + c.freshnessThreshold / 1000000000 ∧
    (m.Time : Int) + unixToInternal + c.freshnessThreshold / 1000000000 ≤ 2 ^ 63 - 1)

/-- Number of distinct verified servers of a list having an entry with
Time + freshnessThreshold > now(); the i-th verified entry (from 0) is compared
with the i-th reading of now(), the one the loop takes when it checks that entry. -/
def freshCount (E : Env) (c : Client) (l : List SignedServerMessage) : Nat :=
  (distinctServers (selectFrom (freshAt c) 0 (verifiedMessages E c l))).length

/-- Number of distinct verified servers the freshness test of the loop accepts. -/
def loopFreshCount (E : Env) (c : Client) (l : List SignedServerMessage) : Nat :=
  (distinctServers (selectFrom (isFresh c) 0 (verifiedMessages E c l))).length

/-- The distinct verified servers having an entry whose HashOfState is byte-equal
to the given root. -/
def serversConfirming (E : Env) (c : Client) (l : List SignedServerMessage)
    (root : Option Bytes) : List Nat :=
  distinctServers ((verifiedMessages E c l).filter (fun m => bytesEqual m.HashOfState root))

/-- The loop of VerifyConsensus run on decoded, verified messages. -/
def recordLoop (c : Client) : ConsensusState → List ServerMessage → Except Error ConsensusState
  | st, [] => .ok st
  | st, msg :: rest =>
    match recordEntry c st msg with
    | .error e => .error e
    | .ok st1 => recordLoop c st1 rest

/-- The first HashOfState that is not nil, if any. -/
def firstRoot : List ServerMessage → Option Bytes
  | [] => none
  | m :: rest =>
    match m.HashOfState with
    | some h => some h
    | none => firstRoot rest

/-- The candidate root after some messages, starting from a candidate. -/
def rootAfter (root : Option Bytes) (msgs : List ServerMessage) : Option Bytes :=
  match root with
  | some r => some r
  | none => firstRoot msgs

/-- Inserting server IDs one by one into a set. -/
def addAll (s : List Nat) (ids : List Nat) : List Nat := ids.foldl setAdd s

/-! ## A concrete environment, for evaluating the definitions -/

/-- A small wire format: `[server, time]` is a message without HashOfState,
`server :: time :: 1 :: h` one whose HashOfState is `h`. -/
def demoUnmarshal : Bytes → Except Error ServerMessage
  | [srv, t] => .ok { Server := srv, Time := t, HashOfState := none }
  | srv :: t :: 1 :: h => .ok { Server := srv, Time := t, HashOfState := some h }
  | _ => .error (Error.external "proto: cannot parse")

/-- Replies of the demo servers: the frame `[k]` carries status number k. -/
def demoReply : Bytes → ClientReply × Option Error
  | [0] => ({ Status := Status.OK, StateConfirmations := [], LookupNodes := [] }, none)
  | [1] => ({ Status := Status.REGISTRATION_DISABLED, StateConfirmations := [], LookupNodes := [] }, none)
  | [2] => ({ Status := Status.INVITE_INVALID, StateConfirmations := [], LookupNodes := [] }, none)
  | [3] => ({ Status := Status.INVITE_USED, StateConfirmations := [], LookupNodes := [] }, none)
  | [4] => ({ Status := Status.NOT_AUTHORIZED, StateConfirmations := [], LookupNodes := [] }, none)
  | [k] => ({ Status := Status.unknown k, StateConfirmations := [], LookupNodes := [] }, none)
  | _ => ({ Status := Status.OK, StateConfirmations := [], LookupNodes := [] },
          some (Error.external "proto: cannot parse"))

/-- A session whose server answers every request with the one-byte frame `[k]`. -/
def demoConn (k : Nat) : Conn :=
  { WriteFrame := fun _ => none
    ReadFrame := fun _ => .ok [k] }

/-- The demo network: the transport key `[k]` belongs to a server answering
`[k]`; the handshake fails with any other key. -/
def demoHandshake : String → Bytes → Except String Conn
  | _, [k] => .ok (demoConn k)
  | _, _ => .error "bad key"

/-- The demo packages.  A signature is accepted when its first 32 bytes are the
public key; the witness `[1]` resolves to the profile bytes `[e]`, decoded as a
profile expiring at second e. -/
def demoEnv : Env :=
  { unmarshalServerMessage := demoUnmarshal
    unmarshalProfile := fun b =>
      match b with
      | [e] => .ok { ExpirationTime := e, rest := [] }
      | _ => .error (Error.external "proto: cannot parse")
    unmarshalClientReply := demoReply
    PBEncodeProfile := fun p => p.ExpirationTime :: p.rest
    PBEncodeOperation := fun name profile => name.length :: (name ++ profile)
    PBEncodeMessage := fun _ => []
    Pad := fun b _ => b
    Unpad := fun b => b
    VerifyResolveAgainstRoot := fun _ _ nodes =>
      match nodes with
      | [] => (none, none)
      | e :: _ => (some [e], none)
    MAX_VALIDITY_PERIOD := 100
    ed25519Verify := fun pk _ sig => decide (sig.take 32 = pk)
    ed25519Sign := fun sk msg => sk ++ msg
    Handshake := demoHandshake
    timeNow := timeUnix 1000 0 }

/-- Verifiers 1, 2 and 3 with keys `[1]`, `[2]`, `[3]`; verifier 4 has no key. -/
def demoVerifiers : Nat → Option verifier
  | 1 => some { name := "A", pk := { Ed25519 := some [1] } }
  | 2 => some { name := "B", pk := { Ed25519 := some [2] } }
  | 3 => some { name := "C", pk := { Ed25519 := some [3] } }
  | 4 => some { name := "D", pk := { Ed25519 := none } }
  | _ => none

/-- A client at second 1000, two signatures required for consensus and for
freshness, freshness threshold 60 s. -/
def demoClient : Client :=
  { now := fun _ => timeUnix 1000 0
    dialer := fun address => if address = "" then some "missing address" else none
    freshnessThreshold := 60 * Second
    freshnessSignaturesRequired := 2
    consensusSignaturesRequired := 2
    verifier := demoVerifiers
    update := []
    lookup := [] }

/-- A validly signed entry of server `srv` at second `t` with the given HashOfState. -/
def demoEntry (srv t : Nat) (h : Option Bytes) : SignedServerMessage :=
  { Message :=
      match h with
      | none => [srv, t]
      | some hs => srv :: t :: 1 :: hs
    Signature := [srv] }

/-- A demo server with transport key `[k]`. -/
def demoServer (k : Nat) : server :=
  { address := "host", timeout := 1, transportPK := [k] }

/-- Three verified entries with root 0xAA; only the first is within 60 s of second 1000. -/
def demoStale : List SignedServerMessage :=
  [demoEntry 1 990 (some [170]), demoEntry 2 900 (some [170]), demoEntry 3 900 (some [170])]

/-- Some server of the run answered authoritatively: the callback returned done=true. -/
def anyDone : List Event → Bool
  | [] => false
  | Event.call _ true :: _ => true
  | _ :: rest => anyDone rest

/-- A server the handshake fails with. -/
def downServer : server :=
  { address := "down", timeout := 1, transportPK := [] }

/-- An operation to submit in the demo runs. -/
def demoOp : SignedProfileOperation :=
  { ProfileOperation := [7], OldProfileSignature := some [8], NewProfileSignature := none }

/-- The demo client with two update servers: the first answers INVITE_USED, the
second OK. -/
def demoUpdateClient : Client :=
  { demoClient with update := [demoServer 3, demoServer 0] }

/-- A lookup reply with two fresh confirmations of root 0xAA and a witness
resolving to a profile that expires at second e. -/
def demoLookupReply (e : Nat) : ClientReply :=
  { Status := Status.OK
    StateConfirmations := [demoEntry 1 990 (some [170]), demoEntry 2 990 (some [170])]
    LookupNodes := [e] }

/-- Package time represents the instants the validity gate computes: the system
clock reading is well formed, the expiration second count since year 1 is within
int64, and so is that of now plus half of MAX_VALIDITY_PERIOD. -/
def gateRepresentable (E : Env) (profile : Profile) : Bool :=
  (validTime E.timeNow && decide ((profile.ExpirationTime : Int) + unixToInternal ≤ 2 ^ 63 - 1)) &&
  decide (-(2 ^ 63) ≤ E.timeNow.sec + (E.timeNow.nsec + halfValidity E) / 1000000000 ∧
    E.timeNow.sec + (E.timeNow.nsec + halfValidity E) / 1000000000 ≤ 2 ^ 63 - 1)

/-- Two verified entries with root 0xAA and Time = 2^63 - 1 seconds. -/
def demoFarFuture : List SignedServerMessage :=
  [demoEntry 1 (2 ^ 63 - 1) (some [170]), demoEntry 2 (2 ^ 63 - 1) (some [170])]

end Dename

namespace Dename

/-! ## The consensus loop on decoded messages -/

theorem contributes_eq_isSome (E : Env) (c : Client) (sm : SignedServerMessage) :
    contributes E c sm = (verifiedMessage E c sm).isSome := by
  unfold contributes verifiedMessage
  cases E.unmarshalServerMessage sm.Message with
  | error e => rfl
  | ok msg =>
    dsimp only
    cases c.verifier msg.Server with
    | none => rfl
    | some v =>
      dsimp only
      cases v.pk.Ed25519 with
      | none => rfl
      | some key =>
        dsimp only
        cases E.ed25519Verify (copyArray 32 key) (consensusSignedBytes sm.Message)
          (copyArray 64 sm.Signature) <;> rfl

theorem consensusStep_of_not_contributes (E : Env) (c : Client) (st : ConsensusState)
    (sm : SignedServerMessage) (h : contributes E c sm = false) :
    consensusStep E c st sm = .ok st := by
  rw [contributes_eq_isSome] at h
  unfold consensusStep
  cases hv : verifiedMessage E c sm with
  | none => rfl
  | some m => rw [hv] at h; cases h

theorem consensusLoop_eq_recordLoop (E : Env) (c : Client) (l : List SignedServerMessage) :
    ∀ st, consensusLoop E c st l = recordLoop c st (verifiedMessages E c l) := by
  induction l with
  | nil => intro st; rfl
  | cons sm rest ih =>
    intro st
    unfold verifiedMessages at ih ⊢
    cases hv : verifiedMessage E c sm with
    | none =>
      rw [List.filterMap_cons_none hv]
      simp only [consensusLoop, consensusStep, hv]
      exact ih st
    | some m =>
      rw [List.filterMap_cons_some hv]
      simp only [consensusLoop, consensusStep, hv, recordLoop]
      cases recordEntry c st m with
      | error e => rfl
      | ok st1 => exact ih st1

theorem verifiedMessages_filter (E : Env) (c : Client) (l : List SignedServerMessage) :
    verifiedMessages E c (l.filter (contributes E c)) = verifiedMessages E c l := by
  induction l with
  | nil => rfl
  | cons sm rest ih =>
    unfold verifiedMessages at ih ⊢
    cases hc : contributes E c sm with
    | true =>
      rw [List.filter_cons_of_pos hc]
      have hs := hc
      rw [contributes_eq_isSome] at hs
      cases hv : verifiedMessage E c sm with
      | none => rw [hv] at hs; cases hs
      | some m =>
        rw [List.filterMap_cons_some hv, List.filterMap_cons_some hv, ih]
    | false =>
      have hn : ¬ (contributes E c sm = true) := by simp [hc]
      rw [List.filter_cons_of_neg hn]
      have hs := hc
      rw [contributes_eq_isSome] at hs
      cases hv : verifiedMessage E c sm with
      | none => rw [List.filterMap_cons_none hv]; exact ih
      | some m => rw [hv] at hs; cases hs

/-! ## Sets of server IDs -/

theorem mem_setAdd (s : List Nat) (id x : Nat) : x ∈ setAdd s id ↔ x ∈ s ∨ x = id := by
  unfold setAdd
  by_cases h : id ∈ s
  · simp only [h, if_true]
    constructor
    · intro hx; exact Or.inl hx
    · intro hx
      cases hx with
      | inl hx => exact hx
      | inr hx => rw [hx]; exact h
  · simp [h]

theorem nodup_setAdd (s : List Nat) (id : Nat) (hs : s.Nodup) : (setAdd s id).Nodup := by
  unfold setAdd
  by_cases h : id ∈ s
  · simp only [h, if_true]; exact hs
  · simp only [h, if_false]
    rw [List.nodup_append]
    refine ⟨hs, List.nodup_singleton id, ?_⟩
    intro a ha hb
    rw [List.mem_singleton] at hb
    exact h (hb ▸ ha)

theorem mem_addAll (ids : List Nat) : ∀ (s : List Nat) (x : Nat),
    x ∈ addAll s ids ↔ x ∈ s ∨ x ∈ ids := by
  induction ids with
  | nil => intro s x; simp [addAll]
  | cons id rest ih =>
    intro s x
    have h := ih (setAdd s id) x
    unfold addAll at h ⊢
    rw [List.foldl_cons, h, mem_setAdd, List.mem_cons]
    tauto

theorem nodup_addAll (ids : List Nat) : ∀ (s : List Nat), s.Nodup → (addAll s ids).Nodup := by
  induction ids with
  | nil => intro s hs; exact hs
  | cons id rest ih =>
    intro s hs
    have h := ih (setAdd s id) (nodup_setAdd s id hs)
    unfold addAll at h ⊢
    rw [List.foldl_cons]
    exact h

theorem length_addAll_nil (ids : List Nat) : (addAll [] ids).length = ids.dedup.length := by
  apply List.Perm.length_eq
  rw [List.perm_ext_iff_of_nodup (nodup_addAll ids [] List.nodup_nil) (List.nodup_dedup ids)]
  intro x
  rw [mem_addAll, List.mem_dedup]
  simp

/-! ## Package time within its range -/

theorem wrapInt64_of_range (x : Int) (h1 : -(2 ^ 63) ≤ x) (h2 : x ≤ 2 ^ 63 - 1) :
    wrapInt64 x = x := by
  unfold wrapInt64
  omega

theorem int64_of_lt (x : Nat) (h : (x : Int) ≤ 2 ^ 63 - 1) : int64 x = (x : Int) := by
  unfold int64
  have h1 : x % 2 ^ 64 = x := Nat.mod_eq_of_lt (by omega)
  rw [h1]
  have h2 : x < 2 ^ 63 := by omega
  rw [if_pos h2]

theorem timeUnix_zero (sec : Int) :
    timeUnix sec 0 = { sec := wrapInt64 (sec + unixToInternal), nsec := 0 } := by
  simp [timeUnix]

theorem addSec_of_range (ext d : Int) (h1 : -(2 ^ 63) ≤ ext + d) (h2 : ext + d ≤ 2 ^ 63 - 1) :
    addSec ext d = ext + d := by
  unfold addSec
  rw [wrapInt64_of_range _ h1 h2]
  have : (ext + d > ext ↔ d > 0) := by constructor <;> intro h <;> omega
  simp [this]

theorem Add_of_range (t : GoTime) (d : Int) (hv : validTime t = true)
    (h1 : -(2 ^ 63) ≤ t.sec + (t.nsec + d) / 1000000000)
    (h2 : t.sec + (t.nsec + d) / 1000000000 ≤ 2 ^ 63 - 1) :
    t.Add d = { sec := t.sec + (t.nsec + d) / 1000000000, nsec := (t.nsec + d) % 1000000000 } := by
  simp only [validTime, decide_eq_true_eq] at hv
  obtain ⟨hv1, hv2⟩ := hv
  unfold GoTime.Add goMod goDiv
  by_cases hd : 0 ≤ d
  · simp only [hd, if_true]
    split
    · rw [addSec_of_range _ _ (by omega) (by omega)]
      congr 1 <;> omega
    · split
      · omega
      · rw [addSec_of_range _ _ (by omega) (by omega)]
        congr 1 <;> omega
  · simp only [hd, if_false]
    split
    · omega
    · split
      · rw [addSec_of_range _ _ (by omega) (by omega)]
        congr 1 <;> omega
      · rw [addSec_of_range _ _ (by omega) (by omega)]
        congr 1 <;> omega

theorem After_iff (a b : GoTime) (ha : validTime a = true) (hb : validTime b = true) :
    a.After b = decide (unixNanos a > unixNanos b) := by
  simp only [validTime, decide_eq_true_eq] at ha hb
  unfold GoTime.After unixNanos
  apply decide_eq_decide.mpr
  constructor
  · intro h; rcases h with h | ⟨h1, h2⟩ <;> omega
  · intro h
    by_cases hs : a.sec > b.sec
    · exact Or.inl hs
    · right; constructor <;> omega

theorem Before_iff (a b : GoTime) (ha : validTime a = true) (hb : validTime b = true) :
    a.Before b = decide (unixNanos a < unixNanos b) := by
  simp only [validTime, decide_eq_true_eq] at ha hb
  unfold GoTime.Before unixNanos
  apply decide_eq_decide.mpr
  constructor
  · intro h; rcases h with h | ⟨h1, h2⟩ <;> omega
  · intro h
    by_cases hs : a.sec < b.sec
    · exact Or.inl hs
    · right; constructor <;> omega

theorem fresh_bridge (time : Nat) (thr : Int) (now : GoTime) (hnow : validTime now = true)
    (h1 : (time : Int) + unixToInternal ≤ 2 ^ 63 - 1)
    (h2 : -(2 ^ 63) ≤ (time : Int) + unixToInternal + thr / 1000000000)
    (h3 : (time : Int) + unixToInternal + thr / 1000000000 ≤ 2 ^ 63 - 1) :
    ((timeUnix (int64 time) 0).Add thr).After now =
      decide ((time : Int) * 1000000000 + thr > unixNanos now) := by
  have hU : unixToInternal = 62135596800 := rfl
  rw [int64_of_lt time (by omega), timeUnix_zero,
    wrapInt64_of_range _ (by omega) (by omega)]
  rw [Add_of_range _ _ (by simp [validTime]) (by simpa using h2) (by simpa using h3)]
  rw [After_iff _ _ (by simp [validTime]; omega) hnow]
  apply decide_eq_decide.mpr
  simp only [unixNanos, zero_add]
  omega

/-! ## What the loop computes -/

theorem bytesEqual_refl (a : Option Bytes) : bytesEqual a a = true := by
  simp [bytesEqual]

theorem bytesEqual_symm (a b : Option Bytes) (h : bytesEqual a b = true) :
    bytesEqual b a = true := by
  simp only [bytesEqual, decide_eq_true_eq] at h ⊢
  exact h.symm

theorem bytesEqual_trans (a b d : Option Bytes) (h1 : bytesEqual a b = true)
    (h2 : bytesEqual b d = true) : bytesEqual a d = true := by
  simp only [bytesEqual, decide_eq_true_eq] at h1 h2 ⊢
  exact h1.trans h2

theorem recordEntry_none (c : Client) (st : ConsensusState) (m : ServerMessage)
    (h : st.rootHash = none) :
    recordEntry c st m = .ok
      { rootHash := m.HashOfState
        consensusServers := setAdd st.consensusServers m.Server
        freshnessServers :=
          if isFresh c st.clockCalls m then setAdd st.freshnessServers m.Server
          else st.freshnessServers
        clockCalls := st.clockCalls + 1 } := by
  unfold recordEntry
  rw [h]
  cases isFresh c st.clockCalls m <;> simp

theorem recordEntry_some_equal (c : Client) (st : ConsensusState) (m : ServerMessage)
    (r : Bytes) (h : st.rootHash = some r) (he : bytesEqual (some r) m.HashOfState = true) :
    recordEntry c st m = .ok
      { rootHash := some r
        consensusServers := setAdd st.consensusServers m.Server
        freshnessServers :=
          if isFresh c st.clockCalls m then setAdd st.freshnessServers m.Server
          else st.freshnessServers
        clockCalls := st.clockCalls + 1 } := by
  unfold recordEntry
  rw [h]
  cases isFresh c st.clockCalls m <;> simp [he]

theorem recordEntry_some_differ (c : Client) (st : ConsensusState) (m : ServerMessage)
    (r : Bytes) (h : st.rootHash = some r) (he : bytesEqual (some r) m.HashOfState = false) :
    recordEntry c st m = .error Error.stateHashesDiffer := by
  unfold recordEntry
  rw [h]
  simp [he]

theorem recordLoop_error (c : Client) (msgs : List ServerMessage) :
    ∀ (st : ConsensusState) (e : Error), recordLoop c st msgs = .error e →
      e = Error.stateHashesDiffer := by
  induction msgs with
  | nil => intro st e h; cases h
  | cons m rest ih =>
    intro st e h
    cases hr : st.rootHash with
    | none =>
      rw [recordLoop, recordEntry_none c st m hr] at h
      exact ih _ e h
    | some r =>
      cases he : bytesEqual (some r) m.HashOfState with
      | true =>
        rw [recordLoop, recordEntry_some_equal c st m r hr he] at h
        exact ih _ e h
      | false =>
        rw [recordLoop, recordEntry_some_differ c st m r hr he] at h
        cases h
        rfl

theorem recordLoop_ok_fields (c : Client) (msgs : List ServerMessage) :
    ∀ (st st1 : ConsensusState), recordLoop c st msgs = .ok st1 →
      st1.rootHash = rootAfter st.rootHash msgs ∧
      st1.consensusServers = addAll st.consensusServers (msgs.map (fun m => m.Server)) ∧
      st1.freshnessServers =
        addAll st.freshnessServers
          ((selectFrom (isFresh c) st.clockCalls msgs).map (fun m => m.Server)) ∧
      st1.clockCalls = st.clockCalls + msgs.length := by
  induction msgs with
  | nil =>
    intro st st1 h
    cases h
    refine ⟨?_, rfl, rfl, rfl⟩
    cases hr : st.rootHash <;> simp [rootAfter, firstRoot]
  | cons m rest ih =>
    intro st st1 h
    have key : ∀ (root : Option Bytes),
        rootAfter root rest = rootAfter st.rootHash (m :: rest) →
        recordLoop c
          { rootHash := root
            consensusServers := setAdd st.consensusServers m.Server
            freshnessServers :=
              if isFresh c st.clockCalls m then setAdd st.freshnessServers m.Server
              else st.freshnessServers
            clockCalls := st.clockCalls + 1 } rest = .ok st1 →
        st1.rootHash = rootAfter st.rootHash (m :: rest) ∧
        st1.consensusServers =
          addAll st.consensusServers ((m :: rest).map (fun m => m.Server)) ∧
        st1.freshnessServers =
          addAll st.freshnessServers
            ((selectFrom (isFresh c) st.clockCalls (m :: rest)).map (fun m => m.Server)) ∧
        st1.clockCalls = st.clockCalls + (m :: rest).length := by
      intro root hroot hl
      obtain ⟨h1, h2, h3, h4⟩ := ih _ st1 hl
      refine ⟨h1.trans hroot, ?_, ?_, ?_⟩
      · rw [h2]; simp [addAll]
      · rw [h3]
        cases hf : isFresh c st.clockCalls m <;> simp [addAll, selectFrom, hf]
      · rw [h4]
        simp only [List.length_cons]
        omega
    cases hr : st.rootHash with
    | none =>
      rw [recordLoop, recordEntry_none c st m hr] at h
      have k := key m.HashOfState
        (by rw [hr]; cases hh : m.HashOfState <;> simp [rootAfter, firstRoot, hh]) h
      rw [hr] at k
      exact k
    | some r =>
      cases he : bytesEqual (some r) m.HashOfState with
      | true =>
        rw [recordLoop, recordEntry_some_equal c st m r hr he] at h
        have k := key (some r) (by rw [hr]; simp [rootAfter]) h
        rw [hr] at k
        exact k
      | false =>
        rw [recordLoop, recordEntry_some_differ c st m r hr he] at h
        cases h

theorem firstRoot_eq_none (msgs : List ServerMessage) (h : firstRoot msgs = none) :
    ∀ m ∈ msgs, m.HashOfState = none := by
  induction msgs with
  | nil => intro m hm; cases hm
  | cons x rest ih =>
    intro m hm
    cases hx : x.HashOfState with
    | some hsh => simp [firstRoot, hx] at h
    | none =>
      simp only [firstRoot, hx] at h
      rcases List.mem_cons.mp hm with rfl | hm
      · exact hx
      · exact ih h m hm

theorem firstRoot_eq_some (msgs : List ServerMessage) (r : Bytes) (h : firstRoot msgs = some r) :
    ∃ x ∈ msgs, x.HashOfState = some r := by
  induction msgs with
  | nil => simp [firstRoot] at h
  | cons x rest ih =>
    cases hx : x.HashOfState with
    | some hsh =>
      simp only [firstRoot, hx, Option.some.injEq] at h
      exact ⟨x, List.mem_cons_self x rest, by rw [hx, h]⟩
    | none =>
      simp only [firstRoot, hx] at h
      obtain ⟨y, hy, hyr⟩ := ih h
      exact ⟨y, List.mem_cons_of_mem x hy, hyr⟩

/-- When the messages agree pairwise, the first root is byte-equal to each. -/
theorem firstRoot_equal_all (msgs : List ServerMessage)
    (hsame : ∀ a ∈ msgs, ∀ b ∈ msgs, bytesEqual a.HashOfState b.HashOfState = true) :
    ∀ m ∈ msgs, bytesEqual (firstRoot msgs) m.HashOfState = true := by
  intro m hm
  cases hf : firstRoot msgs with
  | none =>
    rw [firstRoot_eq_none msgs hf m hm]
    exact bytesEqual_refl none
  | some r =>
    obtain ⟨x, hx, hxr⟩ := firstRoot_eq_some msgs r hf
    rw [← hxr]
    exact hsame x hx m hm

theorem recordLoop_ok_of_same (c : Client) (msgs : List ServerMessage) :
    ∀ (st : ConsensusState),
      (∀ r, st.rootHash = some r → ∀ m ∈ msgs, bytesEqual (some r) m.HashOfState = true) →
      (∀ a ∈ msgs, ∀ b ∈ msgs, bytesEqual a.HashOfState b.HashOfState = true) →
      ∃ st1, recordLoop c st msgs = .ok st1 := by
  induction msgs with
  | nil => intro st _ _; exact ⟨st, rfl⟩
  | cons m rest ih =>
    intro st hroot hsame
    have hsame1 : ∀ a ∈ rest, ∀ b ∈ rest, bytesEqual a.HashOfState b.HashOfState = true :=
      fun a ha b hb => hsame a (List.mem_cons_of_mem m ha) b (List.mem_cons_of_mem m hb)
    cases hr : st.rootHash with
    | none =>
      rw [recordLoop, recordEntry_none c st m hr]
      apply ih _ _ hsame1
      intro r hmr x hx
      simp only at hmr
      rw [← hmr]
      exact hsame m (List.mem_cons_self m rest) x (List.mem_cons_of_mem m hx)
    | some r =>
      have he := hroot r hr m (List.mem_cons_self m rest)
      rw [recordLoop, recordEntry_some_equal c st m r hr he]
      apply ih _ _ hsame1
      intro r1 hr1 x hx
      simp only [Option.some.injEq] at hr1
      rw [← hr1]
      exact hroot r hr x (List.mem_cons_of_mem m hx)

/-- The result of VerifyConsensus once the loop has run to its end. -/
theorem VerifyConsensus_of_loop_ok (E : Env) (c : Client) (l : List SignedServerMessage)
    (st1 : ConsensusState)
    (h : recordLoop c
      { rootHash := none, consensusServers := [], freshnessServers := [], clockCalls := 0 }
      (verifiedMessages E c l) = .ok st1) :
    VerifyConsensus E c l =
      if (consensusCount E c l : Int) < c.consensusSignaturesRequired then
        (none, some (Error.notEnoughValid (consensusCount E c l) c.consensusSignaturesRequired
          (printVerifiers st1.consensusServers c.verifier)))
      else if (loopFreshCount E c l : Int) < c.freshnessSignaturesRequired then
        (none, some (Error.notEnoughFresh (loopFreshCount E c l) c.freshnessSignaturesRequired
          (printVerifiers st1.freshnessServers c.verifier)))
      else (firstRoot (verifiedMessages E c l), none) := by
  obtain ⟨h1, h2, h3, _⟩ := recordLoop_ok_fields c _ _ st1 h
  have hc : st1.consensusServers.length = consensusCount E c l := by
    rw [h2]; exact length_addAll_nil _
  have hf : st1.freshnessServers.length = loopFreshCount E c l := by
    rw [h3]; exact length_addAll_nil _
  have hroot : st1.rootHash = firstRoot (verifiedMessages E c l) := by
    rw [h1]; rfl
  unfold VerifyConsensus
  rw [consensusLoop_eq_recordLoop, h]
  simp only [hc, hf, hroot]

theorem selectFrom_congr (p q : Nat → ServerMessage → Bool) (msgs : List ServerMessage) :
    ∀ k, (∀ i, ∀ m ∈ msgs, p i m = q i m) → selectFrom p k msgs = selectFrom q k msgs := by
  induction msgs with
  | nil => intro k _; rfl
  | cons m rest ih =>
    intro k h
    have hm := h k m (List.mem_cons_self m rest)
    have hrest := ih (k + 1) (fun i x hx => h i x (List.mem_cons_of_mem m hx))
    simp only [selectFrom, hm, hrest]

/-- Within the range package time represents, the freshness test of the loop is
the comparison of Time seconds plus the threshold with the reading of now(). -/
theorem isFresh_eq_freshAt (c : Client) (k : Nat) (m : ServerMessage)
    (hnow : validTime (c.now k) = true) (hrep : representable c m = true) :
    isFresh c k m = freshAt c k m := by
  simp only [representable, decide_eq_true_eq] at hrep
  exact fresh_bridge m.Time c.freshnessThreshold (c.now k) hnow hrep.1 hrep.2.1 hrep.2.2

theorem loopFreshCount_eq_freshCount (E : Env) (c : Client) (l : List SignedServerMessage)
    (hnow : ∀ k, validTime (c.now k) = true)
    (hrep : ∀ m ∈ verifiedMessages E c l, representable c m = true) :
    loopFreshCount E c l = freshCount E c l := by
  unfold loopFreshCount freshCount
  rw [selectFrom_congr (isFresh c) (freshAt c) _ 0
    (fun i m hm => isFresh_eq_freshAt c i m (hnow i) (hrep m hm))]

/-- An early return of the loop is the state-hashes-differ failure. -/
theorem VerifyConsensus_of_loop_error (E : Env) (c : Client) (l : List SignedServerMessage)
    (e : Error)
    (h : recordLoop c { rootHash := none, consensusServers := [], freshnessServers := [], clockCalls := 0 }
      (verifiedMessages E c l) = .error e) :
    VerifyConsensus E c l = (none, some Error.stateHashesDiffer) := by
  have he := recordLoop_error c _ _ e h
  unfold VerifyConsensus
  rw [consensusLoop_eq_recordLoop, h, he]

/-! ## Properties of VerifyConsensus -/

/-- C3: the result of VerifyConsensus (root and error) on a list is its result on
the list with every non-contributing entry removed, and an entry that does not
contribute (does not decode, unknown server, verifier without Ed25519 key, or
signature that does not verify) leaves the loop state as it was: it is added to
neither set and causes no failure. -/
theorem VerifyConsensus_filter_contributes (E : Env) (c : Client)
    (l : List SignedServerMessage) :
    VerifyConsensus E c l = VerifyConsensus E c (l.filter (contributes E c)) ∧
    (∀ (st : ConsensusState) (sm : SignedServerMessage),
      contributes E c sm = false → consensusStep E c st sm = .ok st) := by
  refine ⟨?_, fun st sm h => consensusStep_of_not_contributes E c st sm h⟩
  unfold VerifyConsensus
  rw [consensusLoop_eq_recordLoop, consensusLoop_eq_recordLoop, verifiedMessages_filter]

/-- C3 at a concrete list: an undecodable entry, an entry of an unknown server,
one of a verifier without key and one with a bad signature are dropped. -/
theorem VerifyConsensus_filter_contributes_witness :
    VerifyConsensus demoEnv demoClient
      [{ Message := [], Signature := [] }, demoEntry 1 990 (some [170]), demoEntry 9 990 (some [187]),
       demoEntry 4 990 (some [187]), { Message := [2, 990, 1, 187], Signature := [7] },
       demoEntry 2 990 (some [170])] =
    VerifyConsensus demoEnv demoClient [demoEntry 1 990 (some [170]), demoEntry 2 990 (some [170])] :=
  (VerifyConsensus_filter_contributes demoEnv demoClient _).1

/-- C4, as the code has it: when the verified entries of a list all carry the same
HashOfState, then (a) if moreover package time represents Time and
Time + freshnessThreshold of each verified entry (and the clock returns well-formed
times) and the entries come from at least consensusSignaturesRequired distinct
servers, VerifyConsensus returns that root without error exactly when the number of
distinct verified servers having an entry with Time + freshnessThreshold strictly
greater than now() is at least freshnessSignaturesRequired, and otherwise returns no
root and the not-enough-fresh-signatures error; (b) if the entries come from fewer
servers, it returns no root and the not-enough-valid-signatures error, whatever the
times are.  Each entry is compared with the reading of now() taken when the loop
checks it. -/
theorem VerifyConsensus_fresh_iff (E : Env) (c : Client) (l : List SignedServerMessage)
    (hsame : ∀ a ∈ verifiedMessages E c l, ∀ b ∈ verifiedMessages E c l,
      bytesEqual a.HashOfState b.HashOfState = true) :
    ((∀ k, validTime (c.now k) = true) →
      (∀ m ∈ verifiedMessages E c l, representable c m = true) →
      c.consensusSignaturesRequired ≤ (consensusCount E c l : Int) →
      ((c.freshnessSignaturesRequired ≤ (freshCount E c l : Int) ↔
          ∃ root, VerifyConsensus E c l = (root, none) ∧
            ∀ m ∈ verifiedMessages E c l, bytesEqual root m.HashOfState = true) ∧
       ((freshCount E c l : Int) < c.freshnessSignaturesRequired →
          ∃ names, VerifyConsensus E c l =
            (none, some (Error.notEnoughFresh (freshCount E c l)
              c.freshnessSignaturesRequired names))))) ∧
    ((consensusCount E c l : Int) < c.consensusSignaturesRequired →
      ∃ names, VerifyConsensus E c l =
        (none, some (Error.notEnoughValid (consensusCount E c l)
          c.consensusSignaturesRequired names))) := by
  obtain ⟨st1, hl⟩ := recordLoop_ok_of_same c (verifiedMessages E c l)
    { rootHash := none, consensusServers := [], freshnessServers := [], clockCalls := 0 }
    (by intro r hr; cases hr) hsame
  have hv := VerifyConsensus_of_loop_ok E c l st1 hl
  refine ⟨fun hnow hrep hcons => ?_, fun hfew => ?_⟩
  · rw [loopFreshCount_eq_freshCount E c l hnow hrep] at hv
    refine ⟨⟨fun hfresh => ?_, fun hret => ?_⟩, fun hstale => ?_⟩
    · refine ⟨firstRoot (verifiedMessages E c l), ?_, firstRoot_equal_all _ hsame⟩
      rw [hv, if_neg (not_lt.mpr hcons), if_neg (not_lt.mpr hfresh)]
    · obtain ⟨root, hroot, _⟩ := hret
      by_contra hnot
      rw [hv, if_neg (not_lt.mpr hcons), if_pos (not_le.mp hnot)] at hroot
      cases hroot
    · refine ⟨printVerifiers st1.freshnessServers c.verifier, ?_⟩
      rw [hv, if_neg (not_lt.mpr hcons), if_pos hstale]
  · refine ⟨printVerifiers st1.consensusServers c.verifier, ?_⟩
    rw [hv, if_pos hfew]

/-- C4 at a concrete list: three verified entries with one root, one of them
fresh, two fresh signatures required; the result is the not-enough-fresh error. -/
theorem VerifyConsensus_fresh_iff_witness :
    ∃ names, VerifyConsensus demoEnv demoClient demoStale =
      (none, some (Error.notEnoughFresh 1 2 names)) :=
  ((VerifyConsensus_fresh_iff demoEnv demoClient demoStale (by decide)).1
    (fun _ => rfl) (by decide) (by decide)).2 (by decide)

/-- C4, counterexample: two verified entries of servers A and B carry the same root
and Time = 2^63 - 1 seconds, so Time + freshnessThreshold is greater than now() for
both and two fresh signatures are required; time.Unix wraps the second count into
the far past, no entry is found fresh and the not-enough-fresh error is returned. -/
theorem VerifyConsensus_stale_at_wrapped_time :
    (∀ a ∈ verifiedMessages demoEnv demoClient demoFarFuture,
      ∀ b ∈ verifiedMessages demoEnv demoClient demoFarFuture,
        bytesEqual a.HashOfState b.HashOfState = true) ∧
    demoClient.consensusSignaturesRequired ≤
      (consensusCount demoEnv demoClient demoFarFuture : Int) ∧
    demoClient.freshnessSignaturesRequired ≤
      (freshCount demoEnv demoClient demoFarFuture : Int) ∧
    VerifyConsensus demoEnv demoClient demoFarFuture =
      (none, some (Error.notEnoughFresh 0 2 "")) := by
  decide

/-- C1, failing input: verifier A signs a message without HashOfState and verifier
B one with HashOfState 0xAA; two signatures are required.  VerifyConsensus returns
the root 0xAA without error, and B is the only verified server whose HashOfState
is byte-equal to it. -/
theorem VerifyConsensus_counts_nil_hash :
    VerifyConsensus demoEnv demoClient [demoEntry 1 990 none, demoEntry 2 990 (some [170])] =
      (some [170], none) ∧
    demoClient.consensusSignaturesRequired = 2 ∧
    serversConfirming demoEnv demoClient [demoEntry 1 990 none, demoEntry 2 990 (some [170])]
      (some [170]) = [2] := by
  decide

/-- C2, failing input: two contributing entries whose HashOfState values are not
byte-equal, the first one nil; VerifyConsensus returns a root and no error. -/
theorem VerifyConsensus_no_split_after_nil_hash :
    contributes demoEnv demoClient (demoEntry 3 995 none) = true ∧
    contributes demoEnv demoClient (demoEntry 1 995 (some [1, 2])) = true ∧
    bytesEqual none (some [1, 2]) = false ∧
    VerifyConsensus demoEnv demoClient [demoEntry 3 995 none, demoEntry 1 995 (some [1, 2])] =
      (some [1, 2], none) ∧
    VerifyConsensus demoEnv demoClient [demoEntry 1 995 (some [1, 2]), demoEntry 3 995 none] =
      (none, some Error.stateHashesDiffer) := by
  decide

/-! ## The retry loop -/

theorem atSomeServerFrom_cons_error {σ : Type} (E : Env) (c : Client)
    (f : Conn → σ → (Bool × Option Error) × σ) (s : server) (rest : List server)
    (err0 : Option Error) (st0 : σ) (e : Error) (hc : connect E c s = .error e) :
    atSomeServerFrom E c f (s :: rest) err0 st0 =
      ((atSomeServerFrom E c f rest (some e) st0).1,
       (atSomeServerFrom E c f rest (some e) st0).2.1,
       Event.connect s :: (atSomeServerFrom E c f rest (some e) st0).2.2) := by
  simp only [atSomeServerFrom, hc]

theorem atSomeServerFrom_cons_done {σ : Type} (E : Env) (c : Client)
    (f : Conn → σ → (Bool × Option Error) × σ) (s : server) (rest : List server)
    (err0 : Option Error) (st0 : σ) (conn : Conn) (hc : connect E c s = .ok conn)
    (hd : (f conn st0).1.1 = true) :
    atSomeServerFrom E c f (s :: rest) err0 st0 =
      ((f conn st0).1.2, (f conn st0).2,
       [Event.connect s, Event.call s true, Event.close s]) := by
  simp only [atSomeServerFrom, hc, hd, if_true]

theorem atSomeServerFrom_cons_next {σ : Type} (E : Env) (c : Client)
    (f : Conn → σ → (Bool × Option Error) × σ) (s : server) (rest : List server)
    (err0 : Option Error) (st0 : σ) (conn : Conn) (hc : connect E c s = .ok conn)
    (hd : (f conn st0).1.1 = false) :
    atSomeServerFrom E c f (s :: rest) err0 st0 =
      ((atSomeServerFrom E c f rest (f conn st0).1.2 (f conn st0).2).1,
       (atSomeServerFrom E c f rest (f conn st0).1.2 (f conn st0).2).2.1,
       Event.connect s :: Event.call s false :: Event.close s ::
         (atSomeServerFrom E c f rest (f conn st0).1.2 (f conn st0).2).2.2) := by
  simp only [atSomeServerFrom, hc, hd]
  simp

/-- A run over `pre ++ rest` in which no server of `pre` was done is the run over
`pre` followed by the run over `rest`. -/
theorem atSomeServerFrom_append {σ : Type} (E : Env) (c : Client)
    (f : Conn → σ → (Bool × Option Error) × σ) (pre rest : List server) :
    ∀ (err0 : Option Error) (st0 : σ),
      (∀ t, Event.call t true ∉ (atSomeServerFrom E c f pre err0 st0).2.2) →
      atSomeServerFrom E c f (pre ++ rest) err0 st0 =
        ((atSomeServerFrom E c f rest (atSomeServerFrom E c f pre err0 st0).1
            (atSomeServerFrom E c f pre err0 st0).2.1).1,
         (atSomeServerFrom E c f rest (atSomeServerFrom E c f pre err0 st0).1
            (atSomeServerFrom E c f pre err0 st0).2.1).2.1,
         (atSomeServerFrom E c f pre err0 st0).2.2 ++
           (atSomeServerFrom E c f rest (atSomeServerFrom E c f pre err0 st0).1
             (atSomeServerFrom E c f pre err0 st0).2.1).2.2) := by
  induction pre with
  | nil => intro err0 st0 _; simp [atSomeServerFrom]
  | cons s pre1 ih =>
    intro err0 st0 h
    cases hc : connect E c s with
    | error e =>
      rw [atSomeServerFrom_cons_error E c f s pre1 err0 st0 e hc] at h
      rw [List.cons_append, atSomeServerFrom_cons_error E c f s (pre1 ++ rest) err0 st0 e hc,
        atSomeServerFrom_cons_error E c f s pre1 err0 st0 e hc,
        ih (some e) st0 (fun t ht => h t (List.mem_cons_of_mem _ ht))]
      simp
    | ok conn =>
      cases hd : (f conn st0).1.1 with
      | true =>
        rw [atSomeServerFrom_cons_done E c f s pre1 err0 st0 conn hc hd] at h
        exact absurd (by simp) (h s)
      | false =>
        rw [atSomeServerFrom_cons_next E c f s pre1 err0 st0 conn hc hd] at h
        rw [List.cons_append,
          atSomeServerFrom_cons_next E c f s (pre1 ++ rest) err0 st0 conn hc hd,
          atSomeServerFrom_cons_next E c f s pre1 err0 st0 conn hc hd,
          ih (f conn st0).1.2 (f conn st0).2 (fun t ht => h t
            (List.mem_cons_of_mem _ (List.mem_cons_of_mem _ (List.mem_cons_of_mem _ ht))))]
        simp

/-- A run in which no server was done opened a connection to every server, in
list order. -/
theorem connectedTo_of_none_done {σ : Type} (E : Env) (c : Client)
    (f : Conn → σ → (Bool × Option Error) × σ) (servers : List server) :
    ∀ (err0 : Option Error) (st0 : σ),
      (∀ t, Event.call t true ∉ (atSomeServerFrom E c f servers err0 st0).2.2) →
      connectedTo (atSomeServerFrom E c f servers err0 st0).2.2 = servers := by
  induction servers with
  | nil => intro err0 st0 _; rfl
  | cons s rest ih =>
    intro err0 st0 h
    cases hc : connect E c s with
    | error e =>
      rw [atSomeServerFrom_cons_error E c f s rest err0 st0 e hc] at h ⊢
      simp only [connectedTo]
      rw [ih (some e) st0 (fun t ht => h t (List.mem_cons_of_mem _ ht))]
    | ok conn =>
      cases hd : (f conn st0).1.1 with
      | true =>
        rw [atSomeServerFrom_cons_done E c f s rest err0 st0 conn hc hd] at h
        exact absurd (by simp) (h s)
      | false =>
        rw [atSomeServerFrom_cons_next E c f s rest err0 st0 conn hc hd] at h ⊢
        simp only [connectedTo]
        rw [ih (f conn st0).1.2 (f conn st0).2 (fun t ht => h t
          (List.mem_cons_of_mem _ (List.mem_cons_of_mem _ (List.mem_cons_of_mem _ ht))))]

theorem connectedTo_append (l1 l2 : List Event) :
    connectedTo (l1 ++ l2) = connectedTo l1 ++ connectedTo l2 := by
  induction l1 with
  | nil => rfl
  | cons ev rest ih =>
    cases ev <;> simp [connectedTo, ih]

theorem calledOn_append (l1 l2 : List Event) :
    calledOn (l1 ++ l2) = calledOn l1 ++ calledOn l2 := by
  induction l1 with
  | nil => rfl
  | cons ev rest ih =>
    cases ev <;> simp [calledOn, ih]

/-- The callback is only invoked on servers a connection was opened to, in the
same order. -/
theorem calledOn_sublist_connectedTo {σ : Type} (E : Env) (c : Client)
    (f : Conn → σ → (Bool × Option Error) × σ) (servers : List server) :
    ∀ (err0 : Option Error) (st0 : σ),
      List.Sublist (calledOn (atSomeServerFrom E c f servers err0 st0).2.2)
        (connectedTo (atSomeServerFrom E c f servers err0 st0).2.2) := by
  induction servers with
  | nil => intro err0 st0; exact List.Sublist.refl _
  | cons s rest ih =>
    intro err0 st0
    cases hc : connect E c s with
    | error e =>
      rw [atSomeServerFrom_cons_error E c f s rest err0 st0 e hc]
      simp only [connectedTo, calledOn]
      exact List.Sublist.cons _ (ih (some e) st0)
    | ok conn =>
      cases hd : (f conn st0).1.1 with
      | true =>
        rw [atSomeServerFrom_cons_done E c f s rest err0 st0 conn hc hd]
        simp [connectedTo, calledOn]
      | false =>
        rw [atSomeServerFrom_cons_next E c f s rest err0 st0 conn hc hd]
        simp only [connectedTo, calledOn]
        exact List.Sublist.cons₂ _ (ih _ _)

theorem not_mem_of_anyDone_false (l : List Event) (h : anyDone l = false) :
    ∀ t, Event.call t true ∉ l := by
  induction l with
  | nil => intro t ht; cases ht
  | cons ev rest ih =>
    intro t ht
    cases ev with
    | connect s =>
      simp only [anyDone] at h
      rcases List.mem_cons.mp ht with h1 | h1
      · cases h1
      · exact ih h t h1
    | close s =>
      simp only [anyDone] at h
      rcases List.mem_cons.mp ht with h1 | h1
      · cases h1
      · exact ih h t h1
    | call s d =>
      cases d with
      | true => simp [anyDone] at h
      | false =>
        simp only [anyDone] at h
        rcases List.mem_cons.mp ht with h1 | h1
        · cases h1
        · exact ih h t h1

/-- C7: let `s` be the first server of the list whose connection succeeds and on
which f returns done=true (no server before it was done).  Then atSomeServer
returns exactly the err f returned at `s`, with the variables f left; the events
are those of the earlier servers followed by connect, call and close at `s`; the
connections opened are those to the earlier servers and `s`, in list order, and
f was invoked only on servers among them: nothing happens at a later server. -/
theorem atSomeServer_stops_at_first_done {σ : Type} (E : Env) (c : Client)
    (f : Conn → σ → (Bool × Option Error) × σ) (pre post : List server) (s : server)
    (st0 st1 : σ) (conn : Conn) (err : Option Error)
    (hnone : anyDone (atSomeServer E c pre f st0).2.2 = false)
    (hconn : connect E c s = .ok conn)
    (hf : f conn (atSomeServer E c pre f st0).2.1 = ((true, err), st1)) :
    atSomeServer E c (pre ++ s :: post) f st0 =
      (err, st1, (atSomeServer E c pre f st0).2.2 ++
        [Event.connect s, Event.call s true, Event.close s]) ∧
    connectedTo (atSomeServer E c (pre ++ s :: post) f st0).2.2 = pre ++ [s] ∧
    List.Sublist (calledOn (atSomeServer E c (pre ++ s :: post) f st0).2.2) (pre ++ [s]) := by
  have hpre := not_mem_of_anyDone_false _ hnone
  have hrun : atSomeServer E c (pre ++ s :: post) f st0 =
      (err, st1, (atSomeServer E c pre f st0).2.2 ++
        [Event.connect s, Event.call s true, Event.close s]) := by
    unfold atSomeServer at hpre hf ⊢
    rw [atSomeServerFrom_append E c f pre (s :: post) none st0 hpre,
      atSomeServerFrom_cons_done E c f s post _ _ conn hconn (by rw [hf]), hf]
  have hconnected : connectedTo (atSomeServer E c (pre ++ s :: post) f st0).2.2 = pre ++ [s] := by
    rw [hrun, connectedTo_append]
    unfold atSomeServer at hpre ⊢
    rw [connectedTo_of_none_done E c f pre none st0 hpre]
    rfl
  refine ⟨hrun, hconnected, ?_⟩
  rw [← hconnected]
  exact calledOn_sublist_connectedTo E c f _ none st0

/-- C7 at a concrete list: the handshake with the first server fails, the second
answers INVITE_USED (not done), the third answers OK (done), a fourth follows. -/
theorem atSomeServer_stops_at_first_done_witness :
    atSomeServer demoEnv demoClient ([downServer, demoServer 3] ++ demoServer 0 :: [demoServer 1])
        (enactCallback demoEnv demoOp none) () =
      (none, (), [Event.connect downServer, Event.connect (demoServer 3),
        Event.call (demoServer 3) false, Event.close (demoServer 3),
        Event.connect (demoServer 0), Event.call (demoServer 0) true,
        Event.close (demoServer 0)]) :=
  (atSomeServer_stops_at_first_done demoEnv demoClient (enactCallback demoEnv demoOp none)
    [downServer, demoServer 3] [demoServer 1] (demoServer 0) () () (demoConn 0) none
    (by decide) rfl rfl).1

/-- C8, failing input: with an empty server list no server is contacted and
atSomeServer returns a nil error, so Lookup returns a nil profile with a nil error
and Enact reports success. -/
theorem atSomeServer_empty_returns_nil :
    (atSomeServer demoEnv demoClient [] (lookupCallback demoEnv demoClient "alice") (none, none)).1
      = none ∧
    demoClient.lookup = [] ∧
    Lookup demoEnv demoClient "alice" = (none, none, []) ∧
    Enact demoEnv demoClient demoOp none = (none, []) := by
  decide

/-! ## Enact -/

theorem enactCallback_of_reply (E : Env) (op : SignedProfileOperation) (invite : Option Bytes)
    (conn : Conn) (reply : ClientReply)
    (hwrite : conn.WriteFrame
      (E.Pad (E.PBEncodeMessage (ClientMessage.update op invite)) pad_to) = none)
    (hread : readReply E conn
      (E.Pad (E.PBEncodeMessage (ClientMessage.update op invite)) pad_to) = .ok reply) :
    enactCallback E op invite conn () = (statusResult reply.Status, ()) := by
  simp only [enactCallback, hwrite, hread]

theorem statusResult_not_done (st : Status) (h : st ≠ Status.OK) :
    (statusResult st).1 = false := by
  cases st <;> first | rfl | exact absurd rfl h

theorem atSomeServerFrom_cons_initial {σ : Type} (E : Env) (c : Client)
    (f : Conn → σ → (Bool × Option Error) × σ) (t : server) (rest : List server)
    (e1 e2 : Option Error) (st0 : σ) :
    atSomeServerFrom E c f (t :: rest) e1 st0 = atSomeServerFrom E c f (t :: rest) e2 st0 := by
  simp only [atSomeServerFrom]

theorem connectedTo_head {σ : Type} (E : Env) (c : Client)
    (f : Conn → σ → (Bool × Option Error) × σ) (t : server) (rest : List server)
    (e0 : Option Error) (st0 : σ) :
    (connectedTo (atSomeServerFrom E c f (t :: rest) e0 st0).2.2).head? = some t := by
  cases hc : connect E c t with
  | error e =>
    rw [atSomeServerFrom_cons_error E c f t rest e0 st0 e hc]
    rfl
  | ok conn =>
    cases hd : (f conn st0).1.1 with
    | true =>
      rw [atSomeServerFrom_cons_done E c f t rest e0 st0 conn hc hd]
      rfl
    | false =>
      rw [atSomeServerFrom_cons_next E c f t rest e0 st0 conn hc hd]
      rfl

/-- C6, as the code has it: take a server `s` of the update list that replies, no
earlier server having answered OK.  If its Status is OK the reply is
terminal: Enact returns nil and opens no connection after `s`.  If its Status is
anything else the callback returns done=false: when `s` is the last server Enact
returns that reply's error (ErrRegistrationDisabled, ErrInviteInvalid,
ErrInviteUsed, ErrNotAuthorized, or the unknown-status error); when servers
follow, Enact connects to the next one and its result is the result of the run
over the remaining servers. -/
theorem Enact_status_outcome (E : Env) (c : Client) (op : SignedProfileOperation)
    (invite : Option Bytes) (pre post : List server) (s : server) (conn : Conn)
    (reply : ClientReply)
    (hupd : c.update = pre ++ s :: post)
    (hnone : anyDone (atSomeServer E c pre (enactCallback E op invite) ()).2.2 = false)
    (hconn : connect E c s = .ok conn)
    (hwrite : conn.WriteFrame
      (E.Pad (E.PBEncodeMessage (ClientMessage.update op invite)) pad_to) = none)
    (hread : readReply E conn
      (E.Pad (E.PBEncodeMessage (ClientMessage.update op invite)) pad_to) = .ok reply) :
    (reply.Status = Status.OK →
      (Enact E c op invite).1 = none ∧ connectedTo (Enact E c op invite).2 = pre ++ [s]) ∧
    (reply.Status ≠ Status.OK →
      (post = [] →
        (Enact E c op invite).1 = (statusResult reply.Status).2 ∧
        (Enact E c op invite).1 ≠ none ∧
        connectedTo (Enact E c op invite).2 = pre ++ [s]) ∧
      (post ≠ [] →
        (Enact E c op invite).1 = (atSomeServer E c post (enactCallback E op invite) ()).1 ∧
        connectedTo (Enact E c op invite).2 =
          pre ++ s :: connectedTo (atSomeServer E c post (enactCallback E op invite) ()).2.2 ∧
        (connectedTo (atSomeServer E c post (enactCallback E op invite) ()).2.2).head? =
          post.head?)) ∧
    (statusResult Status.OK = (true, none) ∧
     statusResult Status.REGISTRATION_DISABLED = (false, some Error.ErrRegistrationDisabled) ∧
     statusResult Status.INVITE_INVALID = (false, some Error.ErrInviteInvalid) ∧
     statusResult Status.INVITE_USED = (false, some Error.ErrInviteUsed) ∧
     statusResult Status.NOT_AUTHORIZED = (false, some Error.ErrNotAuthorized) ∧
     ∀ k, statusResult (Status.unknown k) = (false, some Error.unknownStatusCode)) := by
  have hpre := not_mem_of_anyDone_false _ hnone
  have hcb := enactCallback_of_reply E op invite conn reply hwrite hread
  unfold atSomeServer at hpre
  have hcon := connectedTo_of_none_done E c (enactCallback E op invite) pre none () hpre
  have happ := atSomeServerFrom_append E c (enactCallback E op invite) pre (s :: post) none ()
    hpre
  refine ⟨fun hok => ?_, fun hnot => ⟨fun hlast => ?_, fun hmore => ?_⟩,
    rfl, rfl, rfl, rfl, rfl, fun _ => rfl⟩
  · have hd : (enactCallback E op invite conn
        (atSomeServerFrom E c (enactCallback E op invite) pre none ()).2.1).1.1 = true := by
      rw [hcb, hok]; rfl
    rw [atSomeServerFrom_cons_done E c _ s post _ _ conn hconn hd] at happ
    simp only [Enact, atSomeServer, hupd, happ]
    refine ⟨?_, ?_⟩
    · rw [hcb, hok]; rfl
    · rw [connectedTo_append, hcon]; rfl
  · have hd : (enactCallback E op invite conn
        (atSomeServerFrom E c (enactCallback E op invite) pre none ()).2.1).1.1 = false := by
      rw [hcb]; exact statusResult_not_done _ hnot
    rw [atSomeServerFrom_cons_next E c _ s post _ _ conn hconn hd] at happ
    subst hlast
    simp only [Enact, atSomeServer, hupd, happ, atSomeServerFrom]
    refine ⟨?_, ?_, ?_⟩
    · rw [hcb]
    · rw [hcb]
      revert hnot
      cases reply.Status <;> simp [statusResult]
    · rw [connectedTo_append, hcon]; rfl
  · have hd : (enactCallback E op invite conn
        (atSomeServerFrom E c (enactCallback E op invite) pre none ()).2.1).1.1 = false := by
      rw [hcb]; exact statusResult_not_done _ hnot
    rw [atSomeServerFrom_cons_next E c _ s post _ _ conn hconn hd] at happ
    obtain ⟨t, rest, rfl⟩ := List.exists_cons_of_ne_nil hmore
    have hinit := atSomeServerFrom_cons_initial E c (enactCallback E op invite) t rest
      (enactCallback E op invite conn
        (atSomeServerFrom E c (enactCallback E op invite) pre none ()).2.1).1.2 none ()
    simp only [Enact, atSomeServer, hupd, happ]
    rw [hinit]
    refine ⟨rfl, ?_, ?_⟩
    · rw [connectedTo_append, hcon]; rfl
    · exact connectedTo_head E c _ t rest none ()

/-- C6 at a concrete list: the first update server answers INVITE_USED and a
second server follows; Enact goes on to it. -/
theorem Enact_status_outcome_witness :
    (Enact demoEnv demoUpdateClient demoOp none).1 =
      (atSomeServer demoEnv demoUpdateClient [demoServer 0]
        (enactCallback demoEnv demoOp none) ()).1 ∧
    connectedTo (Enact demoEnv demoUpdateClient demoOp none).2 =
      [] ++ demoServer 3 :: connectedTo (atSomeServer demoEnv demoUpdateClient [demoServer 0]
        (enactCallback demoEnv demoOp none) ()).2.2 ∧
    (connectedTo (atSomeServer demoEnv demoUpdateClient [demoServer 0]
        (enactCallback demoEnv demoOp none) ()).2.2).head? = [demoServer 0].head? :=
  ((Enact_status_outcome demoEnv demoUpdateClient demoOp none [] [demoServer 0] (demoServer 3)
    (demoConn 3) (demoReply [3]).1 rfl (by decide) rfl rfl rfl).2.1 (by decide)).2 (by decide)

/-- C6, counterexample: the first update server replies INVITE_USED and the
second OK.  Enact does not stop at the first reply: it connects to the second
server and returns nil instead of ErrInviteUsed. -/
theorem Enact_continues_after_invite_used :
    demoUpdateClient.update = [demoServer 3, demoServer 0] ∧
    enactCallback demoEnv demoOp none (demoConn 3) () =
      ((false, some Error.ErrInviteUsed), ()) ∧
    Enact demoEnv demoUpdateClient demoOp none =
      (none, [Event.connect (demoServer 3), Event.call (demoServer 3) false,
        Event.close (demoServer 3), Event.connect (demoServer 0),
        Event.call (demoServer 0) true, Event.close (demoServer 0)]) := by
  decide

/-! ## The validity gate of LookupFromReply -/

/-- C5, as the code has it: when consensus and witness verification succeed and the
witness yields a decodable profile, LookupFromReply returns that profile.  When
moreover the gate's clock reading is the client's clock (time.Now() returns what
the next call of the injected clock returns) and package time represents the
expiration instant and now() plus half of MAX_VALIDITY_PERIOD, the error is nil
exactly when expirationTime is at or after now() plus half of MAX_VALIDITY_PERIOD
(so also when the two instants are equal), and when expirationTime is strictly
before that instant the error is one for which IsErrOutOfDate is true. -/
theorem LookupFromReply_validity (E : Env) (c : Client) (name : String) (reply : ClientReply)
    (root : Option Bytes) (profileBs : Bytes) (profile : Profile)
    (hcons : VerifyConsensus E c reply.StateConfirmations = (root, none))
    (hres : E.VerifyResolveAgainstRoot root name reply.LookupNodes = (some profileBs, none))
    (hdec : E.unmarshalProfile profileBs = .ok profile) :
    (LookupFromReply E c name reply).1 = some profile ∧
    (E.timeNow = c.now (verifiedMessages E c reply.StateConfirmations).length →
      gateRepresentable E profile = true →
      (((LookupFromReply E c name reply).2 = none ↔
        unixNanos (c.now (verifiedMessages E c reply.StateConfirmations).length) +
            halfValidity E ≤ (profile.ExpirationTime : Int) * 1000000000) ∧
       ((profile.ExpirationTime : Int) * 1000000000 <
          unixNanos (c.now (verifiedMessages E c reply.StateConfirmations).length) +
            halfValidity E →
        IsErrOutOfDate (LookupFromReply E c name reply).2 = true))) := by
  have hprofile : (LookupFromReply E c name reply).1 = some profile := by
    simp only [LookupFromReply, hcons, hres, hdec]
    split <;> rfl
  refine ⟨hprofile, fun hclock hrep => ?_⟩
  rw [← hclock]
  simp only [gateRepresentable, Bool.and_eq_true, decide_eq_true_eq] at hrep
  obtain ⟨⟨hvalid, hexp⟩, hlo, hhi⟩ := hrep
  have hU : unixToInternal = 62135596800 := rfl
  have hsum := Add_of_range E.timeNow (halfValidity E) hvalid hlo hhi
  have hvalid2 := hvalid
  simp only [validTime, decide_eq_true_eq] at hvalid2
  have hbefore : (timeUnix (int64 profile.ExpirationTime) 0).Before
      (E.timeNow.Add (halfValidity E)) =
      decide ((profile.ExpirationTime : Int) * 1000000000 <
        unixNanos E.timeNow + halfValidity E) := by
    rw [int64_of_lt profile.ExpirationTime (by omega), timeUnix_zero,
      wrapInt64_of_range _ (by omega) (by omega), hsum,
      Before_iff _ _ (by simp [validTime]) (by simp [validTime]; omega)]
    apply decide_eq_decide.mpr
    simp only [unixNanos]
    omega
  by_cases hlt : (profile.ExpirationTime : Int) * 1000000000 <
      unixNanos E.timeNow + halfValidity E
  · have hval : (LookupFromReply E c name reply).2 =
        some (Error.errOutOfDate (timeUnix (int64 profile.ExpirationTime) 0)) := by
      simp only [LookupFromReply, hcons, hres, hdec, hbefore, hlt, decide_True, if_true]
    rw [hval]
    exact ⟨⟨fun h => (by cases h), fun h => absurd hlt (not_lt.mpr h)⟩, fun _ => rfl⟩
  · have hval : (LookupFromReply E c name reply).2 = none := by
      simp only [LookupFromReply, hcons, hres, hdec, hbefore, hlt, decide_False]
      rfl
    rw [hval]
    exact ⟨⟨fun _ => not_lt.mp hlt, fun _ => rfl⟩, fun h => absurd h hlt⟩

/-- C5 at a concrete reply: the profile expires at second 1049, one second before
now (second 1000) plus half of the validity period (100 s). -/
theorem LookupFromReply_validity_witness :
    (LookupFromReply demoEnv demoClient "alice" (demoLookupReply 1049)).1 =
      some { ExpirationTime := 1049, rest := [] } ∧
    IsErrOutOfDate (LookupFromReply demoEnv demoClient "alice" (demoLookupReply 1049)).2 = true :=
  ⟨(LookupFromReply_validity demoEnv demoClient "alice" (demoLookupReply 1049) (some [170])
      [1049] { ExpirationTime := 1049, rest := [] } (by decide) rfl rfl).1,
   ((LookupFromReply_validity demoEnv demoClient "alice" (demoLookupReply 1049) (some [170])
      [1049] { ExpirationTime := 1049, rest := [] } (by decide) rfl rfl).2
      (by decide) (by decide)).2 (by decide)⟩

/-- C5, counterexample: consensus and witness verification succeed, the profile
decodes, the system clock and the client's clock both read second 1000, and
expirationTime equals now plus half of MAX_VALIDITY_PERIOD; the profile is returned
with a nil error, not with an out-of-date error.  And for a profile whose
ExpirationTime is 2^63 - 1 seconds, far after now plus half of MAX_VALIDITY_PERIOD,
time.Unix wraps the second count into the past and the profile is returned with an
out-of-date error. -/
theorem LookupFromReply_nil_error_at_boundary :
    VerifyConsensus demoEnv demoClient (demoLookupReply 1050).StateConfirmations =
      (some [170], none) ∧
    demoEnv.timeNow = demoClient.now 2 ∧
    (1050 : Int) * 1000000000 = unixNanos (demoClient.now 2) + halfValidity demoEnv ∧
    LookupFromReply demoEnv demoClient "alice" (demoLookupReply 1050) =
      (some { ExpirationTime := 1050, rest := [] }, none) ∧
    IsErrOutOfDate (LookupFromReply demoEnv demoClient "alice" (demoLookupReply 1050)).2 = false ∧
    unixNanos (demoClient.now 2) + halfValidity demoEnv <
      ((2 ^ 63 - 1 : Nat) : Int) * 1000000000 ∧
    (LookupFromReply demoEnv demoClient "alice" (demoLookupReply (2 ^ 63 - 1))).1 =
      some { ExpirationTime := 2 ^ 63 - 1, rest := [] } ∧
    IsErrOutOfDate
      (LookupFromReply demoEnv demoClient "alice" (demoLookupReply (2 ^ 63 - 1))).2 = true := by
  decide

/-! ## Signing -/

/-- C9: the transfer proposal carries the encoded operation, the old owner
signature over the old-owner separator followed by it, and no new owner
signature; the operation AcceptTransfer submits, NewSign of the proposal, keeps
the operation bytes and the old owner signature and carries the new owner
signature over the new-owner separator followed by the operation bytes. -/
theorem TransferProposal_AcceptTransfer_fields (E : Env) (c : Client) (skOld skNew : Bytes)
    (name : String) (profile : Profile) :
    (TransferProposal E skOld name profile).ProfileOperation =
      E.PBEncodeOperation (bytesOfString name) (E.PBEncodeProfile profile) ∧
    (TransferProposal E skOld name profile).OldProfileSignature =
      some (E.ed25519Sign skOld
        (oldSeparator ++ (TransferProposal E skOld name profile).ProfileOperation)) ∧
    (TransferProposal E skOld name profile).NewProfileSignature = none ∧
    AcceptTransfer E c skNew (TransferProposal E skOld name profile) =
      Enact E c (NewSign E skNew (TransferProposal E skOld name profile)) none ∧
    (NewSign E skNew (TransferProposal E skOld name profile)).ProfileOperation =
      (TransferProposal E skOld name profile).ProfileOperation ∧
    (NewSign E skNew (TransferProposal E skOld name profile)).OldProfileSignature =
      (TransferProposal E skOld name profile).OldProfileSignature ∧
    (NewSign E skNew (TransferProposal E skOld name profile)).NewProfileSignature =
      some (E.ed25519Sign skNew
        (newSeparator ++ (TransferProposal E skOld name profile).ProfileOperation)) := by
  refine ⟨rfl, rfl, rfl, rfl, rfl, rfl, rfl⟩

/-- C10: the bytes signed by OldSign, by NewSign and those checked by
VerifyConsensus are pairwise different, whatever the operation bodies and the
server message are. -/
theorem signed_bytes_pairwise_distinct (a b d : Bytes) :
    oldSignedBytes a ≠ newSignedBytes b ∧
    oldSignedBytes a ≠ consensusSignedBytes d ∧
    newSignedBytes b ≠ consensusSignedBytes d := by
  refine ⟨?_, ?_, ?_⟩ <;>
    simp [oldSignedBytes, newSignedBytes, consensusSignedBytes, oldSeparator, newSeparator,
      msgSeparator]

/-! ## Further facts: where the root comparison does hold, and the retry loop on a
non-empty list -/

/-- Once the loop has run to its end, the candidate root is byte-equal to the
HashOfState of every message that has one. -/
theorem recordLoop_root_equal_present (c : Client) (msgs : List ServerMessage) :
    ∀ (st st1 : ConsensusState), recordLoop c st msgs = .ok st1 →
      ∀ m ∈ msgs, m.HashOfState ≠ none → bytesEqual st1.rootHash m.HashOfState = true := by
  induction msgs with
  | nil => intro st st1 _ m hm; cases hm
  | cons x rest ih =>
    intro st st1 h m hm hpresent
    cases hr : st.rootHash with
    | none =>
      rw [recordLoop, recordEntry_none c st x hr] at h
      rcases List.mem_cons.mp hm with rfl | hm1
      · obtain ⟨h1, _, _⟩ := recordLoop_ok_fields c rest _ st1 h
        cases hh : m.HashOfState with
        | none => exact absurd hh hpresent
        | some hs =>
          rw [h1]
          simp only [hh, rootAfter]
          exact bytesEqual_refl _
      · exact ih _ st1 h m hm1 hpresent
    | some r =>
      cases he : bytesEqual (some r) x.HashOfState with
      | true =>
        rw [recordLoop, recordEntry_some_equal c st x r hr he] at h
        rcases List.mem_cons.mp hm with rfl | hm1
        · obtain ⟨h1, _, _⟩ := recordLoop_ok_fields c rest _ st1 h
          rw [h1]
          simp only [rootAfter]
          exact he
        · exact ih _ st1 h m hm1 hpresent
      | false =>
        rw [recordLoop, recordEntry_some_differ c st x r hr he] at h
        cases h

/-- The state-hashes-differ failure does occur when two verified entries both
have a HashOfState and the two are not byte-equal. -/
theorem VerifyConsensus_split_of_present (E : Env) (c : Client) (l : List SignedServerMessage)
    (a b : ServerMessage) (ha : a ∈ verifiedMessages E c l) (hb : b ∈ verifiedMessages E c l)
    (hap : a.HashOfState ≠ none) (hbp : b.HashOfState ≠ none)
    (hne : bytesEqual a.HashOfState b.HashOfState = false) :
    VerifyConsensus E c l = (none, some Error.stateHashesDiffer) := by
  cases hl : recordLoop c { rootHash := none, consensusServers := [], freshnessServers := [], clockCalls := 0 }
      (verifiedMessages E c l) with
  | error e => exact VerifyConsensus_of_loop_error E c l e hl
  | ok st1 =>
    have h1 := recordLoop_root_equal_present c _ _ st1 hl a ha hap
    have h2 := recordLoop_root_equal_present c _ _ st1 hl b hb hbp
    have h3 := bytesEqual_trans _ _ _ (bytesEqual_symm _ _ h1) h2
    rw [h3] at hne
    cases hne

/-- When every verified entry has a HashOfState, a root returned without error is
byte-equal to the HashOfState of at least consensusSignaturesRequired distinct
verified servers. -/
theorem VerifyConsensus_root_confirmed_of_present (E : Env) (c : Client)
    (l : List SignedServerMessage) (root : Option Bytes)
    (hpresent : ∀ m ∈ verifiedMessages E c l, m.HashOfState ≠ none)
    (hret : VerifyConsensus E c l = (root, none)) :
    c.consensusSignaturesRequired ≤ ((serversConfirming E c l root).length : Int) := by
  cases hl : recordLoop c { rootHash := none, consensusServers := [], freshnessServers := [], clockCalls := 0 }
      (verifiedMessages E c l) with
  | error e =>
    rw [VerifyConsensus_of_loop_error E c l e hl] at hret
    cases hret
  | ok st1 =>
    have hv := VerifyConsensus_of_loop_ok E c l st1 hl
    obtain ⟨hroot1, _, _⟩ := recordLoop_ok_fields c _ _ st1 hl
    have hroot2 : st1.rootHash = firstRoot (verifiedMessages E c l) := by rw [hroot1]; rfl
    by_cases h1 : (consensusCount E c l : Int) < c.consensusSignaturesRequired
    · rw [hv, if_pos h1] at hret; cases hret
    · by_cases h2 : (loopFreshCount E c l : Int) < c.freshnessSignaturesRequired
      · rw [hv, if_neg h1, if_pos h2] at hret; cases hret
      · rw [hv, if_neg h1, if_neg h2] at hret
        have hr : firstRoot (verifiedMessages E c l) = root := by
          cases hret; rfl
        have hall : (verifiedMessages E c l).filter (fun m => bytesEqual m.HashOfState root) =
            verifiedMessages E c l := by
          rw [List.filter_eq_self]
          intro m hm
          apply bytesEqual_symm
          rw [← hr, ← hroot2]
          exact recordLoop_root_equal_present c _ _ st1 hl m hm (hpresent m hm)
        unfold serversConfirming
        rw [hall]
        exact not_lt.mp h1

/-- On a non-empty list, when no server was done, the error returned is the one
produced at the last server: its connection error, or the error f returned there. -/
theorem atSomeServer_last_error {σ : Type} (E : Env) (c : Client)
    (f : Conn → σ → (Bool × Option Error) × σ) (pre : List server) (s : server) (st0 : σ)
    (hnone : anyDone (atSomeServer E c pre f st0).2.2 = false) :
    (atSomeServer E c (pre ++ [s]) f st0).1 =
      match connect E c s with
      | .error e => some e
      | .ok conn => (f conn (atSomeServer E c pre f st0).2.1).1.2 := by
  have hpre := not_mem_of_anyDone_false _ hnone
  unfold atSomeServer at hpre ⊢
  rw [atSomeServerFrom_append E c f pre [s] none st0 hpre]
  cases hc : connect E c s with
  | error e =>
    rw [atSomeServerFrom_cons_error E c f s [] _ _ e hc]
    rfl
  | ok conn =>
    cases hd : (f conn (atSomeServerFrom E c f pre none st0).2.1).1.1 with
    | true => rw [atSomeServerFrom_cons_done E c f s [] _ _ conn hc hd]
    | false =>
      rw [atSomeServerFrom_cons_next E c f s [] _ _ conn hc hd]
      rfl

/-- When the callback never returns done=false with a nil error, a nil error of
the loop means that the list was empty or that some server was done. -/
theorem atSomeServerFrom_nil_error {σ : Type} (E : Env) (c : Client)
    (f : Conn → σ → (Bool × Option Error) × σ)
    (hf : ∀ conn st, (f conn st).1.1 = false → (f conn st).1.2 ≠ none)
    (servers : List server) :
    ∀ (err0 : Option Error) (st0 : σ),
      (atSomeServerFrom E c f servers err0 st0).1 = none →
      (servers = [] ∧ err0 = none) ∨
        anyDone (atSomeServerFrom E c f servers err0 st0).2.2 = true := by
  induction servers with
  | nil => intro err0 st0 h; exact Or.inl ⟨rfl, h⟩
  | cons s rest ih =>
    intro err0 st0 h
    right
    cases hc : connect E c s with
    | error e =>
      rw [atSomeServerFrom_cons_error E c f s rest err0 st0 e hc] at h ⊢
      rcases ih (some e) st0 h with ⟨_, h2⟩ | h2
      · cases h2
      · simpa [anyDone] using h2
    | ok conn =>
      cases hd : (f conn st0).1.1 with
      | true =>
        rw [atSomeServerFrom_cons_done E c f s rest err0 st0 conn hc hd]
        rfl
      | false =>
        rw [atSomeServerFrom_cons_next E c f s rest err0 st0 conn hc hd] at h ⊢
        rcases ih _ _ h with ⟨_, h2⟩ | h2
        · exact absurd h2 (hf conn st0 hd)
        · simpa [anyDone] using h2

theorem lookupCallback_not_done (E : Env) (c : Client) (name : String) (conn : Conn)
    (st : Option Profile × Option ClientReply)
    (h : (lookupCallback E c name conn st).1.1 = false) :
    (lookupCallback E c name conn st).1.2 ≠ none := by
  unfold lookupCallback at h ⊢
  simp only at h ⊢
  split
  · simp
  · split
    · simp
    · split <;> simp_all

/-- Lookup returns a nil error only when the lookup list is empty or some server
replied (the callback was done there). -/
theorem Lookup_nil_error (E : Env) (c : Client) (name : String)
    (h : (Lookup E c name).2.1 = none) :
    c.lookup = [] ∨ anyDone (Lookup E c name).2.2 = true := by
  have key := atSomeServerFrom_nil_error E c (lookupCallback E c name)
    (lookupCallback_not_done E c name) c.lookup none (none, none) h
  rcases key with ⟨h1, _⟩ | h2
  · exact Or.inl h1
  · exact Or.inr h2

end Dename
